import Mathlib

/-!
Verification of the EPP assignment-2 survey-harmonization pipeline
(`clean_nlsy_data.py`, `merge.py`) against its natural-language
specification.  Cell values, metadata rows and data frames are embedded
shallowly; each function below mirrors one Python function or one named
step inside it.
-/

set_option maxHeartbeats 1000000

namespace EppPipeline

/-- Ordered BPI answer levels, mirroring the `CategoricalDtype` built in
`_harmonize_bpi_category` with categories
`["not true", "sometimes true", "often true"]`, ordered. -/
inductive BpiLevel where
  | notTrue
  | sometimesTrue
  | oftenTrue
  deriving DecidableEq, Repr

/-- The ordered category list of the `CategoricalDtype` in the source. -/
def bpiCategories : List String := ["not true", "sometimes true", "often true"]

/-- The label string of a level, as stored in the pandas categorical. -/
def BpiLevel.label : BpiLevel → String
  | BpiLevel.notTrue => "not true"
  | BpiLevel.sometimesTrue => "sometimes true"
  | BpiLevel.oftenTrue => "often true"

/-- Position of a level in the ordered category list (the categorical order). -/
def BpiLevel.rank (l : BpiLevel) : Nat := bpiCategories.indexOf l.label

/-- A pandas cell value as used by this pipeline: missing (`pd.NA`/`NaN`),
an integer, a string, an ordered-categorical BPI level, or a numeric score. -/
inductive Value where
  | na
  | int (n : Int)
  | str (s : String)
  | cat (l : BpiLevel)
  | num (q : ℚ)
  deriving DecidableEq, Repr

/-- Python `pd.isna` on a single cell. -/
def pdIsna : Value → Bool
  | Value.na => true
  | _ => false

/-- Python `str(v)` for the cell values that can reach it in
`_normalize_value` (it is only applied after the `pd.isna` check). -/
def pyStr : Value → String
  | Value.na => "<NA>"
  | Value.int n => toString n
  | Value.str s => s
  | Value.cat l => l.label
  | Value.num q => toString q

/-- Python `str.upper()` (character-wise uppercasing). -/
def pyUpper (s : String) : String := String.mk (s.data.map Char.toUpper)

/-- Python `str.strip()`: drop leading and trailing whitespace. -/
def pyStrip (s : String) : String :=
  String.mk (((s.data.dropWhile Char.isWhitespace).reverse.dropWhile
    Char.isWhitespace).reverse)

/-- `_to_pandas_missing` from `clean_nlsy_data.py`: `s.replace(-7, pd.NA)`
at the level of one cell. -/
def toPandasMissing (v : Value) : Value :=
  if v = Value.int (-7) then Value.na else v

/-- `_harmonize_bpi_category` at the level of one cell: replace the `-7`
sentinel, then normalize (`str(v).strip().upper()`) and match the three
canonical labels; anything else becomes missing.  The result is a value of
the ordered categorical, i.e. `Option BpiLevel` with `none` for missing. -/
def harmonizeBpiCategory (v : Value) : Option BpiLevel :=
  let v := toPandasMissing v
  if pdIsna v then none
  else
    let s := pyUpper (pyStrip (pyStr v))
    if s = "NOT TRUE" then some BpiLevel.notTrue
    else if s = "SOMETIMES TRUE" then some BpiLevel.sometimesTrue
    else if s = "OFTEN TRUE" then some BpiLevel.oftenTrue
    else none

/-- The harmonized cell stored back into the frame (`df[col] = ...`). -/
def harmonizeCell (v : Value) : Value :=
  match harmonizeBpiCategory v with
  | some l => Value.cat l
  | none => Value.na

/-- The dictionary used by `_categorical_to_binary`. -/
def binaryMapping (s : String) : Option ℚ :=
  if s = "not true" then some 0
  else if s = "sometimes true" then some 1
  else if s = "often true" then some 1
  else none

/-- `_categorical_to_binary` at the level of one cell: `s.map(mapping)`
looks the categorical value's label up in the dictionary; missing values
and values outside the dictionary become missing (`NaN`). -/
def categoricalToBinary (v : Value) : Option ℚ :=
  match v with
  | Value.cat l => binaryMapping l.label
  | _ => none

/-- Characters of `readable_name.split("_", 1)[0]`: everything strictly
before the first underscore, or the whole list when there is none. -/
def subscaleHead : List Char → List Char
  | [] => []
  | c :: cs => if c = '_' then [] else c :: subscaleHead cs

/-- `_get_subscale` from `clean_nlsy_data.py`: `readable_name.split("_", 1)[0]`. -/
def getSubscale (readableName : String) : String :=
  String.mk (subscaleHead readableName.data)

/-- First value bound to a key in an association list (pandas column
access on a frame with that column, taking the first matching label). -/
def findVal {β : Type} : List (String × β) → String → Option β
  | [], _ => none
  | e :: rest, c => if e.1 = c then some e.2 else findVal rest c

/-- Cell of a row at a column name, `Value.na` when the column is absent. -/
def cellAt (r : List (String × Value)) (c : String) : Value :=
  (findVal r c).getD Value.na

/-- A pandas data frame: index level names, column names, and rows, each
row consisting of its index key (one value per index level) and its cells
keyed by column name. -/
structure Frame where
  indexNames : List String
  cols : List String
  rows : List (List Value × List (String × Value))
  deriving DecidableEq, Repr

deriving instance DecidableEq for Except

/-- Error message of the CHS index check in `merge_chs_nlsy`. -/
def chsIndexMsg : String := "CHS must have MultiIndex (childid, year)."

/-- Error message of the NLSY index check in `merge_chs_nlsy`. -/
def nlsyIndexMsg : String := "NLSY must have MultiIndex (childid, year)."

/-- Error pandas raises from `join` when column names overlap. -/
def columnsOverlapMsg : String := "columns overlap but no suffix specified"

/-- Error message of the age-column lookup in `merge_chs_nlsy`. -/
def noAgeColumnMsg : String := "No age column in merged data."

/-- The colliding column names `chs_cols & nlsy_cols` in `merge_chs_nlsy`
(as the sublist of CHS columns also present in NLSY). -/
def overlapOf (chs nlsy : Frame) : List String :=
  chs.cols.filter (fun c => decide (c ∈ nlsy.cols))

/-- The rename applied on one side: colliding names get the source tag. -/
def tagRename (overlap : List String) (sfx : String) (c : String) : String :=
  if c ∈ overlap then c ++ sfx else c

/-- Rename every column label of a frame. -/
def renameFrame (f : Frame) (ren : String → String) : Frame :=
  { indexNames := f.indexNames
    cols := f.cols.map ren
    rows := f.rows.map (fun r => (r.1, r.2.map (fun e => (ren e.1, e.2)))) }

/-- The CHS side after collision renaming (`chs.rename(columns=...)`). -/
def taggedChs (chs nlsy : Frame) : Frame :=
  renameFrame chs (tagRename (overlapOf chs nlsy) "_chs")

/-- The NLSY side after collision renaming (`nlsy.rename(columns=...)`). -/
def taggedNlsy (chs nlsy : Frame) : Frame :=
  renameFrame nlsy (tagRename (overlapOf chs nlsy) "_nlsy")

/-- Inner join on the index (`chs.join(nlsy, how="inner")`): keep each
pairing of a left row with a right row carrying an equal key, left cells
before right cells. -/
def innerJoin (a b : Frame) : Frame :=
  { indexNames := a.indexNames
    cols := a.cols ++ b.cols
    rows := a.rows.flatMap (fun ra =>
      (b.rows.filter (fun rb => decide (rb.1 = ra.1))).map
        (fun rb => (ra.1, ra.2 ++ rb.2))) }

/-- The joined table built inside `merge_chs_nlsy`. -/
def joinedOf (chs nlsy : Frame) : Frame :=
  innerJoin (taggedChs chs nlsy) (taggedNlsy chs nlsy)

/-- The age-column lookup of `merge_chs_nlsy`: try `age`, then `age_chs`,
otherwise fail.  (`age_nlsy` is never tried.) -/
def ageColumnOf (cols : List String) : Option String :=
  if "age" ∈ cols then some "age"
  else if "age_chs" ∈ cols then some "age_chs"
  else none

/-- The row mask `(merged[age_col] >= 5) & (merged[age_col] <= 13)`;
a missing age compares to `NA`, which the boolean mask treats as `False`. -/
def ageOk : Value → Bool
  | Value.int n => decide (5 ≤ n ∧ n ≤ 13)
  | Value.num q => decide (5 ≤ q ∧ q ≤ 13)
  | _ => false

/-- `merge_chs_nlsy` from `merge.py`.  The `isinstance(..., pd.MultiIndex)`
safety checks are modelled as requiring at least two index levels; the
third guard models the error pandas `join` raises when the renamed column
sets still overlap. -/
def mergeChsNlsy (chs nlsy : Frame) : Except String Frame :=
  if chs.indexNames.length < 2 then Except.error chsIndexMsg
  else if nlsy.indexNames.length < 2 then Except.error nlsyIndexMsg
  else if ¬ ((taggedChs chs nlsy).cols.filter
      (fun c => decide (c ∈ (taggedNlsy chs nlsy).cols))) = [] then
    Except.error columnsOverlapMsg
  else
    match ageColumnOf (joinedOf chs nlsy).cols with
    | none => Except.error noAgeColumnMsg
    | some a =>
        Except.ok { joinedOf chs nlsy with
          rows := (joinedOf chs nlsy).rows.filter
            (fun r => ageOk (cellAt r.2 a)) }

/-- One row of `bpi_variable_info.csv`: raw variable name, clean name, and
either a survey year (as text) or the sentinel `invariant`. -/
structure MetaRow where
  nlsy_name : String
  readable_name : String
  survey_year : String
  deriving DecidableEq, Repr

/-- A raw wide-format wave table: column names and rows of cells. -/
structure RawTable where
  cols : List String
  rows : List (List (String × Value))
  deriving DecidableEq, Repr

/-- Error message of the childid check in `_clean_one_wave`. -/
def childidMissingMsg : String := "childid missing (check bpi_variable_info.csv)."

/-- Error pandas raises when `astype("Int64")` meets a non-integer value. -/
def cannotConvertMsg : String := "cannot convert to Int64"

/-- Error pandas raises when a column accessed by name is absent. -/
def keyErrorMsg (c : String) : String := "KeyError: " ++ c

/-- `bpi_info[bpi_info["survey_year"] == "invariant"]`. -/
def idRowsOf (info : List MetaRow) : List MetaRow :=
  info.filter (fun m => decide (m.survey_year = "invariant"))

/-- `bpi_info[bpi_info["survey_year"].astype(str) == str(year)]`. -/
def yearRowsOf (info : List MetaRow) (year : Int) : List MetaRow :=
  info.filter (fun m => decide (m.survey_year = toString year))

/-- `cols_needed = [c for c in id_raw + item_raw if c in df.columns]`. -/
def colsNeededOf (raw : RawTable) (year : Int) (info : List MetaRow) :
    List String :=
  ((idRowsOf info).map MetaRow.nlsy_name ++
    (yearRowsOf info year).map MetaRow.nlsy_name).filter
      (fun c => decide (c ∈ raw.cols))

/-- `rename_map = dict(zip(id_raw, id_clean)) | dict(zip(item_raw,
item_clean))`, as an association list in which a later binding wins. -/
def renameMapOf (info : List MetaRow) (year : Int) : List (String × String) :=
  (idRowsOf info).map (fun m => (m.nlsy_name, m.readable_name)) ++
    (yearRowsOf info year).map (fun m => (m.nlsy_name, m.readable_name))

/-- Apply the rename map to one column label (`df.rename(columns=...)`);
looking the label up in the reversed list realizes last-binding-wins. -/
def applyRename (info : List MetaRow) (year : Int) (c : String) : String :=
  (findVal (renameMapOf info year).reverse c).getD c

/-- Columns of the wave table after `df = df[cols_needed + ["year"]]`. -/
def subsetColsOf (raw : RawTable) (year : Int) (info : List MetaRow) :
    List String :=
  colsNeededOf raw year info ++ ["year"]

/-- Columns of the wave table after the rename step. -/
def renamedColsOf (raw : RawTable) (year : Int) (info : List MetaRow) :
    List String :=
  (subsetColsOf raw year info).map (applyRename info year)

/-- One row after subsetting and adding the year column. -/
def subsetRowOf (raw : RawTable) (year : Int) (info : List MetaRow)
    (r : List (String × Value)) : List (String × Value) :=
  (colsNeededOf raw year info).map (fun c => (c, cellAt r c)) ++
    [("year", Value.int year)]

/-- One row after the rename step. -/
def renamedRowOf (raw : RawTable) (year : Int) (info : List MetaRow)
    (r : List (String × Value)) : List (String × Value) :=
  (subsetRowOf raw year info r).map
    (fun e => (applyRename info year e.1, e.2))

/-- `item_clean` of one wave. -/
def itemCleanOf (info : List MetaRow) (year : Int) : List String :=
  (yearRowsOf info year).map MetaRow.readable_name

/-- `item_cols_cat`: the clean item names actually present after renaming. -/
def itemColsCatOf (raw : RawTable) (year : Int) (info : List MetaRow) :
    List String :=
  (itemCleanOf info year).filter
    (fun c => decide (c ∈ renamedColsOf raw year info))

/-- One row after harmonizing every present item column. -/
def harmonizedRowOf (raw : RawTable) (year : Int) (info : List MetaRow)
    (r : List (String × Value)) : List (String × Value) :=
  (renamedRowOf raw year info r).map
    (fun e => if e.1 ∈ itemColsCatOf raw year info
      then (e.1, harmonizeCell e.2) else e)

/-- Python `dict`/`set` deduplication keeping the first occurrence. -/
def pyDedup : List String → List String
  | [] => []
  | c :: cs => c :: (pyDedup cs).filter (fun x => decide (¬ x = c))

/-- Insert into a lexicographically sorted list (for Python `sorted`). -/
def insertSorted (x : String) : List String → List String
  | [] => [x]
  | y :: ys => if y ≤ x then y :: insertSorted x ys else x :: y :: ys

/-- Python `sorted` on strings, as insertion sort. -/
def sortStrings : List String → List String
  | [] => []
  | x :: xs => insertSorted x (sortStrings xs)

/-- `subscales = sorted(set(item_to_subscale.values()))`. -/
def subscalesOf (raw : RawTable) (year : Int) (info : List MetaRow) :
    List String :=
  sortStrings (pyDedup ((pyDedup (itemColsCatOf raw year info)).map
    getSubscale))

/-- `sub_items`: the (distinct) item columns belonging to one subscale. -/
def subItemsOf (raw : RawTable) (year : Int) (info : List MetaRow)
    (sc : String) : List String :=
  (pyDedup (itemColsCatOf raw year info)).filter
    (fun c => decide (getSubscale c = sc))

/-- `df_num[sub_items].mean(axis=1)` for one row: the mean over the
non-missing values, missing when every value is missing. -/
def seriesMean (xs : List (Option ℚ)) : Option ℚ :=
  let vs := xs.filterMap id
  if vs.length = 0 then none else some (vs.sum / (vs.length : ℚ))

/-- The subscale score of one harmonized row. -/
def scoreValueOfRow (raw : RawTable) (year : Int) (info : List MetaRow)
    (hr : List (String × Value)) (sc : String) : Value :=
  match seriesMean ((subItemsOf raw year info sc).map
      (fun c => categoricalToBinary (cellAt hr c))) with
  | some q => Value.num q
  | none => Value.na

/-- The `df_scores` cells of one row. -/
def scoreEntriesOfRow (raw : RawTable) (year : Int) (info : List MetaRow)
    (hr : List (String × Value)) : List (String × Value) :=
  (subscalesOf raw year info).map
    (fun sc => ("bpi_" ++ sc, scoreValueOfRow raw year info hr sc))

/-- The `df_scores` column names. -/
def scoreColsOf (raw : RawTable) (year : Int) (info : List MetaRow) :
    List String :=
  (subscalesOf raw year info).map (fun sc => "bpi_" ++ sc)

/-- `astype("Int64")` on one cell: missing passes through, integers stay,
integer-valued text and numbers convert, anything else raises. -/
def astypeInt64 : Value → Except String Value
  | Value.na => Except.ok Value.na
  | Value.int n => Except.ok (Value.int n)
  | Value.str s =>
    match s.toInt? with
    | some n => Except.ok (Value.int n)
    | none => Except.error cannotConvertMsg
  | Value.cat _ => Except.error cannotConvertMsg
  | Value.num q =>
    if q.den = 1 then Except.ok (Value.int q.num)
    else Except.error cannotConvertMsg

/-- Map a fallible function over a list, stopping at the first error. -/
def mapExcept {α β : Type} (f : α → Except String β) :
    List α → Except String (List β)
  | [] => Except.ok []
  | x :: xs =>
    match f x with
    | Except.error e => Except.error e
    | Except.ok y =>
      match mapExcept f xs with
      | Except.error e => Except.error e
      | Except.ok ys => Except.ok (y :: ys)

/-- `df[c] = df[c].astype("Int64")` on one row. -/
def astypeColRow (c : String) (r : List (String × Value)) :
    Except String (List (String × Value)) :=
  mapExcept (fun e =>
    if e.1 = c then
      match astypeInt64 e.2 with
      | Except.ok v => Except.ok (e.1, v)
      | Except.error msg => Except.error msg
    else Except.ok e) r

/-- `df[c] = df[c].astype("Int64")` on the whole table: a `KeyError` when
the column is absent, otherwise the conversion applied to every row. -/
def astypeFrameCol (c : String) (cols : List String)
    (rows : List (List (String × Value))) :
    Except String (List (List (String × Value))) :=
  if c ∈ cols then mapExcept (astypeColRow c) rows
  else Except.error (keyErrorMsg c)

/-- The dtype-correction block of `_clean_one_wave`: childid and year are
always converted, momid and birth_order only when present. -/
def astypeStage (rCols : List String)
    (rows : List (List (String × Value))) :
    Except String (List (List (String × Value))) :=
  match astypeFrameCol "childid" rCols rows with
  | Except.error e => Except.error e
  | Except.ok r1 =>
    match astypeFrameCol "year" rCols r1 with
    | Except.error e => Except.error e
    | Except.ok r2 =>
      match (if "momid" ∈ rCols then astypeFrameCol "momid" rCols r2
        else Except.ok r2) with
      | Except.error e => Except.error e
      | Except.ok r3 =>
        if "birth_order" ∈ rCols then astypeFrameCol "birth_order" rCols r3
        else Except.ok r3

/-- `_clean_one_wave` from `clean_nlsy_data.py`: subset and rename per the
metadata, harmonize the items, score the subscales, check childid, fix
dtypes, join the scores and key by (childid, year).  The join guard models
the error pandas raises when a score column name collides with a table
column. -/
def cleanOneWave (raw : RawTable) (year : Int) (info : List MetaRow) :
    Except String Frame :=
  if "childid" ∈ renamedColsOf raw year info then
    match astypeStage (renamedColsOf raw year info)
        (raw.rows.map (harmonizedRowOf raw year info)) with
    | Except.error e => Except.error e
    | Except.ok r4 =>
      if (scoreColsOf raw year info).filter
          (fun c => decide (c ∈ renamedColsOf raw year info)) = [] then
        Except.ok
          { indexNames := ["childid", "year"]
            cols := (renamedColsOf raw year info).filter
                (fun c => decide (¬ (c = "childid" ∨ c = "year"))) ++
              scoreColsOf raw year info
            rows := (r4.zip (raw.rows.map (harmonizedRowOf raw year info))).map
              (fun rr =>
                ([cellAt rr.1 "childid", cellAt rr.1 "year"],
                 rr.1.filter
                     (fun e => decide (¬ (e.1 = "childid" ∨ e.1 = "year"))) ++
                   scoreEntriesOfRow raw year info rr.2)) }
      else Except.error columnsOverlapMsg
  else Except.error childidMissingMsg

/-- `range(1986, 2012, 2)`: the thirteen even survey years 1986..2010. -/
def nlsyWaveYears : List Int :=
  (List.range 13).map (fun i => 1986 + 2 * (i : Int))

/-- Row order of `sort_index()`: ascending in (childid, year); rows whose
keys are not integer pairs are left where the comparator puts them. -/
def rowKeyLe (a b : List Value × List (String × Value)) : Bool :=
  match a.1, b.1 with
  | [Value.int c1, Value.int y1], [Value.int c2, Value.int y2] =>
    decide (c1 < c2 ∨ (c1 = c2 ∧ y1 ≤ y2))
  | _, _ => true

/-- Insertion into a sorted row list. -/
def insertRow (x : List Value × List (String × Value)) :
    List (List Value × List (String × Value)) →
      List (List Value × List (String × Value))
  | [] => [x]
  | y :: ys => if rowKeyLe y x then y :: insertRow x ys else x :: y :: ys

/-- Insertion sort of rows by key. -/
def sortRows : List (List Value × List (String × Value)) →
    List (List Value × List (String × Value))
  | [] => []
  | x :: xs => insertRow x (sortRows xs)

/-- `pd.concat(waves).sort_index()`: union of the columns, concatenation
of the rows, sorted by key. -/
def concatSorted (fs : List Frame) : Frame :=
  { indexNames := ["childid", "year"]
    cols := fs.foldl
      (fun acc f => acc ++ f.cols.filter (fun c => decide (¬ c ∈ acc))) []
    rows := sortRows (fs.map Frame.rows).flatten }

/-- `manage_nlsy_data` from `clean_nlsy_data.py`: clean every wave and
concatenate into one long table. -/
def manageNlsyData (raw : RawTable) (info : List MetaRow) :
    Except String Frame :=
  match mapExcept (fun y => cleanOneWave raw y info) nlsyWaveYears with
  | Except.error e => Except.error e
  | Except.ok waves => Except.ok (concatSorted waves)

/-- Concrete metadata: a childid identifier plus two 1986 anxiety items. -/
def c2Info : List MetaRow :=
  [{ nlsy_name := "C0000100", readable_name := "childid",
     survey_year := "invariant" },
   { nlsy_name := "A1", readable_name := "anxiety_mood",
     survey_year := "1986" },
   { nlsy_name := "A2", readable_name := "anxiety_worry",
     survey_year := "1986" }]

/-- Concrete raw wave: one child carrying the missing sentinel -7 on both
anxiety items. -/
def c2Raw : RawTable :=
  { cols := ["C0000100", "A1", "A2"]
    rows := [[("C0000100", Value.int 1), ("A1", Value.int (-7)),
              ("A2", Value.int (-7))]] }

/-- The cleaned 1986 wave of `c2Raw`: with zero non-missing items the
anxiety score is missing, not zero. -/
def c2Row : List Value × List (String × Value) :=
  ([Value.int 1, Value.int 1986],
   [("anxiety_mood", Value.na),
    ("anxiety_worry", Value.na), ("bpi_anxiety", Value.na)])

/-- The cleaned 1986 wave table of `c2Raw`. -/
def c2Wave : Frame :=
  { indexNames := ["childid", "year"]
    cols := ["anxiety_mood", "anxiety_worry", "bpi_anxiety"]
    rows := [c2Row] }

/-- A raw table with two rows sharing the same child id. -/
def c6Raw : RawTable :=
  { cols := ["C0000100"]
    rows := [[("C0000100", Value.int 1)], [("C0000100", Value.int 1)]] }

/-- Metadata carrying only the childid identifier. -/
def c6Info : List MetaRow :=
  [{ nlsy_name := "C0000100", readable_name := "childid",
     survey_year := "invariant" }]

/-- The cleaned 1986 wave of `c6Raw`: the duplicated key is kept. -/
def c6Wave : Frame :=
  { indexNames := ["childid", "year"]
    cols := []
    rows := [([Value.int 1, Value.int 1986], []),
             ([Value.int 1, Value.int 1986], [])] }

/-- A raw table for the wave-cleaning error-handling witness. -/
def c8Raw : RawTable :=
  { cols := ["C0000100"]
    rows := [[("C0000100", Value.int 5)]] }

/-- Metadata whose second row names a raw variable absent from `c8Raw`. -/
def c8Info : List MetaRow :=
  [{ nlsy_name := "C0000100", readable_name := "childid",
     survey_year := "invariant" },
   { nlsy_name := "A9", readable_name := "anxiety_mood",
     survey_year := "1986" }]

/-- Concrete CHS table for exercising the merge: two children observed in
1990, one aged 7 and one aged 4. -/
def c3Chs : Frame :=
  { indexNames := ["childid", "year"]
    cols := ["age"]
    rows := [([Value.int 1, Value.int 1990], [("age", Value.int 7)]),
             ([Value.int 2, Value.int 1990], [("age", Value.int 4)])] }

/-- Concrete NLSY table matching both children of `c3Chs` on the key. -/
def c3Nlsy : Frame :=
  { indexNames := ["childid", "year"]
    cols := ["x"]
    rows := [([Value.int 1, Value.int 1990], [("x", Value.int 3)]),
             ([Value.int 2, Value.int 1990], [("x", Value.int 9)])] }

/-- The single surviving row of the merge of `c3Chs` and `c3Nlsy`. -/
def c3Row : List Value × List (String × Value) :=
  ([Value.int 1, Value.int 1990], [("age", Value.int 7), ("x", Value.int 3)])

/-- The merge of `c3Chs` and `c3Nlsy`: only the child aged 7 survives the
age filter; the age-4 child is excluded although it matches on the key. -/
def c3Merged : Frame :=
  { indexNames := ["childid", "year"]
    cols := ["age", "x"]
    rows := [c3Row] }

/-- A CHS table without any age column. -/
def c4Chs : Frame :=
  { indexNames := ["childid", "year"]
    cols := ["x"]
    rows := [([Value.int 1, Value.int 1990], [("x", Value.int 1)])] }

/-- An NLSY table carrying the age under the NLSY-tagged name `age_nlsy`. -/
def c4Nlsy : Frame :=
  { indexNames := ["childid", "year"]
    cols := ["age_nlsy"]
    rows := [([Value.int 1, Value.int 1990], [("age_nlsy", Value.int 7)])] }

/-- A CHS table with an age column, for the age-lookup priority witness. -/
def c4wChs : Frame :=
  { indexNames := ["childid", "year"]
    cols := ["age"]
    rows := [([Value.int 1, Value.int 1990], [("age", Value.int 7)])] }

/-- An NLSY table with no colliding columns, for the age-lookup witness. -/
def c4wNlsy : Frame :=
  { indexNames := ["childid", "year"]
    cols := ["x"]
    rows := [([Value.int 1, Value.int 1990], [("x", Value.int 2)])] }

/-- A CHS table owning both a colliding column `momid_chs` and a colliding
column `momid` whose tagged name collides with `momid_chs`. -/
def c5Chs : Frame :=
  { indexNames := ["childid", "year"]
    cols := ["age", "momid", "momid_chs"]
    rows := [([Value.int 1, Value.int 1990],
              [("age", Value.int 7), ("momid", Value.int 11),
               ("momid_chs", Value.int 22)])] }

/-- An NLSY table sharing both `momid` and `momid_chs` with `c5Chs`. -/
def c5Nlsy : Frame :=
  { indexNames := ["childid", "year"]
    cols := ["momid", "momid_chs"]
    rows := [([Value.int 1, Value.int 1990],
              [("momid", Value.int 33), ("momid_chs", Value.int 44)])] }

/-- The single row of the merge of `c5Chs` and `c5Nlsy`: the unqualified
colliding name `momid_chs` is still present, now holding the renamed CHS
`momid` data instead of the original CHS `momid_chs` data. -/
def c5MergedRow : List Value × List (String × Value) :=
  ([Value.int 1, Value.int 1990],
   [("age", Value.int 7), ("momid_chs", Value.int 11),
    ("momid_chs_chs", Value.int 22), ("momid_nlsy", Value.int 33),
    ("momid_chs_nlsy", Value.int 44)])

/-- The merge of `c5Chs` and `c5Nlsy`. -/
def c5Merged : Frame :=
  { indexNames := ["childid", "year"]
    cols := ["age", "momid_chs", "momid_chs_chs", "momid_nlsy",
             "momid_chs_nlsy"]
    rows := [c5MergedRow] }

/-- A CHS table with one colliding column `momid`, for the collision
witness. -/
def c5wChs : Frame :=
  { indexNames := ["childid", "year"]
    cols := ["age", "momid"]
    rows := [([Value.int 1, Value.int 1990],
              [("age", Value.int 7), ("momid", Value.int 11)])] }

/-- An NLSY table with one colliding column `momid`, for the collision
witness. -/
def c5wNlsy : Frame :=
  { indexNames := ["childid", "year"]
    cols := ["momid"]
    rows := [([Value.int 1, Value.int 1990], [("momid", Value.int 33)])] }

/-- The merge of `c5wChs` and `c5wNlsy`. -/
def c5wMerged : Frame :=
  { indexNames := ["childid", "year"]
    cols := ["age", "momid_chs", "momid_nlsy"]
    rows := [([Value.int 1, Value.int 1990],
              [("age", Value.int 7), ("momid_chs", Value.int 11),
               ("momid_nlsy", Value.int 33)])] }

/-- A table whose index is a two-level multi-index that is not the
(childid, year) pair. -/
def c9Chs : Frame :=
  { indexNames := ["momid", "region"]
    cols := ["age"]
    rows := [([Value.int 1, Value.int 2], [("age", Value.int 7)])] }

/-- Another table keyed by a pair that is not (childid, year). -/
def c9Nlsy : Frame :=
  { indexNames := ["a", "b"]
    cols := ["x"]
    rows := [([Value.int 1, Value.int 2], [("x", Value.int 5)])] }

theorem subscaleHead_not_mem (l : List Char) : '_' ∉ subscaleHead l := by
  induction l with
  | nil => simp [subscaleHead]
  | cons c cs ih =>
    by_cases hc : c = '_'
    · simp [subscaleHead, hc]
    · simp only [subscaleHead, if_neg hc, List.mem_cons]
      rintro (h | h)
      · exact hc h.symm
      · exact ih h

theorem subscaleHead_decomp (l : List Char) :
    ∃ rest, l = subscaleHead l ++ rest ∧ (rest = [] ∨ ∃ t, rest = '_' :: t) := by
  induction l with
  | nil => exact ⟨[], by simp [subscaleHead]⟩
  | cons c cs ih =>
    by_cases hc : c = '_'
    · exact ⟨c :: cs, by simp [subscaleHead, hc], Or.inr ⟨cs, by simp [hc]⟩⟩
    · obtain ⟨rest, hr, hcase⟩ := ih
      refine ⟨rest, ?_, hcase⟩
      simp [subscaleHead, hc]
      exact hr

theorem subscaleHead_of_not_mem (l : List Char) (h : '_' ∉ l) :
    subscaleHead l = l := by
  induction l with
  | nil => rfl
  | cons c cs ih =>
    have hc : c ≠ '_' := fun hc => h (hc ▸ List.mem_cons_self c cs)
    have hcs : '_' ∉ cs := fun hm => h (List.mem_cons_of_mem c hm)
    simp [subscaleHead, hc]
    exact ih hcs

/-- Claim C1, counterexample: the claim says the numeric code `0` is
harmonized to the level not-true, but `_harmonize_bpi_category` stringifies
the value (`str(v)` gives `"0"`, which matches no label), so the numeric
code `0` becomes missing instead. -/
theorem C1_counterexample_numeric_code :
    harmonizeBpiCategory (Value.int 0) = none ∧
    harmonizeBpiCategory (Value.int 0) ≠ some BpiLevel.notTrue := by
  decide

/-- Claim C1 (amended): after trimming and uppercasing, exactly the three
text labels NOT TRUE, SOMETIMES TRUE, OFTEN TRUE are recognized and map to
not-true, sometimes-true, often-true respectively; the numeric codes 0, 1, 2
are not recognized (values are stringified before matching, and the digit
strings match no label) and map to missing, as does every other value,
including already-missing input; no error is ever raised (the function is
total). -/
theorem C1_harmonize_amended :
    harmonizeBpiCategory Value.na = none ∧
    harmonizeBpiCategory (Value.int 0) = none ∧
    harmonizeBpiCategory (Value.int 1) = none ∧
    harmonizeBpiCategory (Value.int 2) = none ∧
    (∀ s : String, pyUpper (pyStrip s) = "NOT TRUE" →
      harmonizeBpiCategory (Value.str s) = some BpiLevel.notTrue) ∧
    (∀ s : String, pyUpper (pyStrip s) = "SOMETIMES TRUE" →
      harmonizeBpiCategory (Value.str s) = some BpiLevel.sometimesTrue) ∧
    (∀ s : String, pyUpper (pyStrip s) = "OFTEN TRUE" →
      harmonizeBpiCategory (Value.str s) = some BpiLevel.oftenTrue) ∧
    (∀ s : String, pyUpper (pyStrip s) ≠ "NOT TRUE" →
      pyUpper (pyStrip s) ≠ "SOMETIMES TRUE" →
      pyUpper (pyStrip s) ≠ "OFTEN TRUE" →
      harmonizeBpiCategory (Value.str s) = none) := by
  refine ⟨by decide, by decide, by decide, by decide, ?_, ?_, ?_, ?_⟩
  · intro s h
    simp [harmonizeBpiCategory, toPandasMissing, pdIsna, pyStr, h]
  · intro s h
    simp [harmonizeBpiCategory, toPandasMissing, pdIsna, pyStr, h]
  · intro s h
    simp [harmonizeBpiCategory, toPandasMissing, pdIsna, pyStr, h]
  · intro s h1 h2 h3
    simp [harmonizeBpiCategory, toPandasMissing, pdIsna, pyStr, h1, h2, h3]

/-- Witness for C1: concrete inputs discharging each hypothesis of the
amended harmonization theorem. -/
theorem C1_harmonize_amended_witness :
    (pyUpper (pyStrip " not true ") = "NOT TRUE" ∧
      harmonizeBpiCategory (Value.str " not true ") = some BpiLevel.notTrue) ∧
    (pyUpper (pyStrip "Sometimes True") = "SOMETIMES TRUE" ∧
      harmonizeBpiCategory (Value.str "Sometimes True") =
        some BpiLevel.sometimesTrue) ∧
    (pyUpper (pyStrip "often true") = "OFTEN TRUE" ∧
      harmonizeBpiCategory (Value.str "often true") = some BpiLevel.oftenTrue) ∧
    (pyUpper (pyStrip "0") ≠ "NOT TRUE" ∧
      harmonizeBpiCategory (Value.str "0") = none) :=
  ⟨⟨by decide, C1_harmonize_amended.2.2.2.2.1 " not true " (by decide)⟩,
   ⟨by decide, C1_harmonize_amended.2.2.2.2.2.1 "Sometimes True" (by decide)⟩,
   ⟨by decide, C1_harmonize_amended.2.2.2.2.2.2.1 "often true" (by decide)⟩,
   ⟨by decide, C1_harmonize_amended.2.2.2.2.2.2.2 "0" (by decide) (by decide)
      (by decide)⟩⟩

/-- Claim C7: binarization is monotone with the categorical order fixed by
the `CategoricalDtype`: not-true maps to 0, sometimes-true and often-true
map to 1, and a missing harmonized value maps to a missing binarized value,
never to 0. -/
theorem C7_binarize_monotone :
    categoricalToBinary Value.na = none ∧
    categoricalToBinary (Value.cat BpiLevel.notTrue) = some 0 ∧
    categoricalToBinary (Value.cat BpiLevel.sometimesTrue) = some 1 ∧
    categoricalToBinary (Value.cat BpiLevel.oftenTrue) = some 1 ∧
    (∀ a b : BpiLevel, BpiLevel.rank a ≤ BpiLevel.rank b →
      ∀ x y : ℚ, categoricalToBinary (Value.cat a) = some x →
        categoricalToBinary (Value.cat b) = some y → x ≤ y) := by
  refine ⟨rfl, by decide, by decide, by decide, ?_⟩
  intro a b hab x y hx hy
  cases a <;> cases b <;>
    simp [categoricalToBinary, binaryMapping, BpiLevel.label] at hx hy <;>
    subst hx <;> subst hy <;>
    first
      | exact absurd hab (by decide)
      | norm_num

/-- Witness for C7: the monotonicity clause applied at not-true versus
often-true. -/
theorem C7_binarize_monotone_witness :
    BpiLevel.rank BpiLevel.notTrue ≤ BpiLevel.rank BpiLevel.oftenTrue ∧
    (0 : ℚ) ≤ 1 :=
  ⟨by decide,
   C7_binarize_monotone.2.2.2.2 BpiLevel.notTrue BpiLevel.oftenTrue
     (by decide) 0 1 (by decide) (by decide)⟩

/-- Claim C10: `_get_subscale` is a total function of the input string; its
result contains no underscore, is the part of the input strictly before the
first underscore (the input is the result followed either by nothing or by
an underscore and the rest), and when the input contains no underscore the
entire string is returned unchanged. -/
theorem C10_get_subscale_first_token (s : String) :
    '_' ∉ (getSubscale s).data ∧
    (∃ rest, s.data = (getSubscale s).data ++ rest ∧
      (rest = [] ∨ ∃ t, rest = '_' :: t)) ∧
    ('_' ∉ s.data → getSubscale s = s) := by
  refine ⟨subscaleHead_not_mem s.data, subscaleHead_decomp s.data, ?_⟩
  intro h
  show String.mk (subscaleHead s.data) = s
  rw [subscaleHead_of_not_mem s.data h]

/-- Witness for C10: for the underscore-free input `"anxiety"` the string is
returned unchanged, and for `"anxiety_mood"` the subscale is the part before
the first underscore. -/
theorem C10_get_subscale_first_token_witness :
    ('_' ∉ ("anxiety" : String).data ∧ getSubscale "anxiety" = "anxiety") ∧
    getSubscale "anxiety_mood" = "anxiety" :=
  ⟨⟨by decide, (C10_get_subscale_first_token "anxiety").2.2 (by decide)⟩,
   by decide⟩

theorem findVal_append {β : Type} (l₁ l₂ : List (String × β)) (c : String) :
    findVal (l₁ ++ l₂) c =
      match findVal l₁ c with
      | some v => some v
      | none => findVal l₂ c := by
  induction l₁ with
  | nil => simp [findVal]
  | cons e l ih =>
    by_cases he : e.1 = c
    · simp [findVal, he]
    · simp [findVal, he, ih]

theorem findVal_eq_none {β : Type} {l : List (String × β)} {c : String}
    (h : ∀ e ∈ l, e.1 ≠ c) : findVal l c = none := by
  induction l with
  | nil => rfl
  | cons e l ih =>
    simp only [findVal, if_neg (h e (List.mem_cons_self e l))]
    exact ih (fun e' he' => h e' (List.mem_cons_of_mem e he'))

theorem findVal_map_ren {β : Type} (ren : String → String) (src tgt : String)
    (l : List (String × β)) (h : ∀ e ∈ l, (ren e.1 = tgt ↔ e.1 = src)) :
    findVal (l.map (fun e => (ren e.1, e.2))) tgt = findVal l src := by
  induction l with
  | nil => rfl
  | cons e l ih =>
    have he := h e (List.mem_cons_self e l)
    have ht : ∀ e' ∈ l, (ren e'.1 = tgt ↔ e'.1 = src) :=
      fun e' he' => h e' (List.mem_cons_of_mem e he')
    by_cases hsrc : e.1 = src
    · have hh : ren e.1 = tgt := he.mpr hsrc
      simp only [List.map_cons, findVal]
      rw [if_pos hh, if_pos hsrc]
    · have hne : ren e.1 ≠ tgt := fun hc => hsrc (he.mp hc)
      simp only [List.map_cons, findVal]
      rw [if_neg hne, if_neg hsrc]
      exact ih ht

theorem merge_no_index_error (chs nlsy : Frame)
    (h1 : ¬ chs.indexNames.length < 2) (h2 : ¬ nlsy.indexNames.length < 2) :
    mergeChsNlsy chs nlsy ≠ Except.error chsIndexMsg ∧
    mergeChsNlsy chs nlsy ≠ Except.error nlsyIndexMsg := by
  unfold mergeChsNlsy
  rw [if_neg h1, if_neg h2]
  constructor <;>
    · split
      · simp [columnsOverlapMsg, chsIndexMsg, nlsyIndexMsg]
      · split
        · simp [noAgeColumnMsg, chsIndexMsg, nlsyIndexMsg]
        · simp

/-- Claim C9, counterexample: both inputs have two-level multi-indexes
whose level names are not (childid, year); the claim says the merge must
fail with a structural error on inputs not keyed by the (child, year)
pair, but the code only checks `isinstance(index, MultiIndex)` and the
merge succeeds. -/
theorem C9_counterexample_wrong_key_passes :
    (mergeChsNlsy c9Chs c9Nlsy).isOk = true ∧
    c9Chs.indexNames ≠ ["childid", "year"] ∧
    c9Nlsy.indexNames ≠ ["childid", "year"] := by decide

/-- Claim C9 (amended): before doing anything else, `merge_chs_nlsy`
verifies only that each input is keyed by a multi-level index: it fails
with the CHS structural error exactly when the CHS index has fewer than
two levels, and with the NLSY structural error exactly when the CHS index
passes and the NLSY index has fewer than two levels; the names of the
index levels are never verified. -/
theorem C9_index_check_amended (chs nlsy : Frame) :
    (mergeChsNlsy chs nlsy = Except.error chsIndexMsg ↔
      chs.indexNames.length < 2) ∧
    (mergeChsNlsy chs nlsy = Except.error nlsyIndexMsg ↔
      (2 ≤ chs.indexNames.length ∧ nlsy.indexNames.length < 2)) := by
  by_cases h1 : chs.indexNames.length < 2
  · constructor
    · simp [mergeChsNlsy, h1]
    · simp only [mergeChsNlsy, if_pos h1]
      constructor
      · intro hc
        exact absurd (Except.error.inj hc)
          (by simp [chsIndexMsg, nlsyIndexMsg])
      · intro hc
        exact absurd hc.1 (by omega)
  · by_cases h2 : nlsy.indexNames.length < 2
    · constructor
      · simp only [mergeChsNlsy, if_neg h1, if_pos h2]
        constructor
        · intro hc
          exact absurd (Except.error.inj hc)
            (by simp [chsIndexMsg, nlsyIndexMsg])
        · intro hc
          exact absurd hc h1
      · simp only [mergeChsNlsy, if_neg h1, if_pos h2]
        constructor
        · intro _
          exact ⟨by omega, h2⟩
        · intro _
          trivial
    · have hno := merge_no_index_error chs nlsy h1 h2
      constructor
      · constructor
        · intro hc
          exact absurd hc hno.1
        · intro hc
          exact absurd hc h1
      · constructor
        · intro hc
          exact absurd hc hno.2
        · intro hc
          exact absurd hc.2 h2

/-- Claim C4, counterexample: the joined table contains the NLSY-tagged
age column `age_nlsy` and no `age` or `age_chs`; the claim says the
lookup would fall back to `age_nlsy`, but the code only tries `age` and
`age_chs` and raises the structural error. -/
theorem C4_counterexample_age_nlsy_not_tried :
    mergeChsNlsy c4Chs c4Nlsy = Except.error noAgeColumnMsg ∧
    "age_nlsy" ∈ (joinedOf c4Chs c4Nlsy).cols := by decide

/-- Claim C4 (amended): `merge_chs_nlsy` locates the age column by trying
the untagged name `age` first and then the CHS-tagged name `age_chs`, in
that priority order; the NLSY-tagged name `age_nlsy` is never tried.
Given inputs passing the index checks and the join overlap check, it
fails with the structural error exactly when neither `age` nor `age_chs`
exists in the joined table, even when `age_nlsy` exists. -/
theorem C4_age_lookup_amended (chs nlsy : Frame)
    (h1 : 2 ≤ chs.indexNames.length) (h2 : 2 ≤ nlsy.indexNames.length)
    (h3 : (taggedChs chs nlsy).cols.filter
      (fun c => decide (c ∈ (taggedNlsy chs nlsy).cols)) = []) :
    (mergeChsNlsy chs nlsy = Except.error noAgeColumnMsg ↔
      ("age" ∉ (joinedOf chs nlsy).cols ∧
       "age_chs" ∉ (joinedOf chs nlsy).cols)) ∧
    ("age" ∈ (joinedOf chs nlsy).cols →
      ageColumnOf (joinedOf chs nlsy).cols = some "age") ∧
    ("age" ∉ (joinedOf chs nlsy).cols →
      "age_chs" ∈ (joinedOf chs nlsy).cols →
      ageColumnOf (joinedOf chs nlsy).cols = some "age_chs") ∧
    ("age_nlsy" ∈ (joinedOf chs nlsy).cols →
      ageColumnOf (joinedOf chs nlsy).cols = none →
      mergeChsNlsy chs nlsy = Except.error noAgeColumnMsg) := by
  have h1' : ¬ chs.indexNames.length < 2 := by omega
  have h2' : ¬ nlsy.indexNames.length < 2 := by omega
  have h3' : ¬ ¬ (taggedChs chs nlsy).cols.filter
      (fun c => decide (c ∈ (taggedNlsy chs nlsy).cols)) = [] := by
    simp [h3]
  by_cases hage : "age" ∈ (joinedOf chs nlsy).cols
  · refine ⟨?_, fun _ => by simp [ageColumnOf, hage], fun hc => absurd hage hc,
      fun _ hnone => ?_⟩
    · simp only [mergeChsNlsy, if_neg h1', if_neg h2', if_neg h3',
        ageColumnOf, if_pos hage]
      constructor
      · intro hc
        exact absurd hc (by simp)
      · intro hc
        exact absurd hage hc.1
    · rw [ageColumnOf, if_pos hage] at hnone
      exact absurd hnone (by simp)
  · by_cases hagec : "age_chs" ∈ (joinedOf chs nlsy).cols
    · refine ⟨?_, fun hc => absurd hc hage,
        fun _ _ => by simp [ageColumnOf, hage, hagec], fun _ hnone => ?_⟩
      · simp only [mergeChsNlsy, if_neg h1', if_neg h2', if_neg h3',
          ageColumnOf, if_neg hage, if_pos hagec]
        constructor
        · intro hc
          exact absurd hc (by simp)
        · intro hc
          exact absurd hagec hc.2
      · rw [ageColumnOf, if_neg hage, if_pos hagec] at hnone
        exact absurd hnone (by simp)
    · refine ⟨?_, fun hc => absurd hc hage, fun _ hc => absurd hc hagec,
        fun _ _ => ?_⟩
      · simp only [mergeChsNlsy, if_neg h1', if_neg h2', if_neg h3',
          ageColumnOf, if_neg hage, if_neg hagec]
        simp [hage, hagec]
      · simp only [mergeChsNlsy, if_neg h1', if_neg h2', if_neg h3',
          ageColumnOf, if_neg hage, if_neg hagec]

/-- Witness for C4: on concrete multi-indexed inputs with an untagged
`age` column and no collisions, the lookup selects `age`. -/
theorem C4_age_lookup_amended_witness :
    ageColumnOf (joinedOf c4wChs c4wNlsy).cols = some "age" :=
  (C4_age_lookup_amended c4wChs c4wNlsy (by decide) (by decide)
    (by decide)).2.1 (by decide)

/-- Claim C3: every row of a successful merge has a key present in both
input tables (inner join), and its age cell, read at the age column the
code selected, lies in the closed range [5, 13]; a matching row with age
4 is therefore excluded. -/
theorem C3_merge_strict_subset_age_range (chs nlsy m : Frame)
    (hok : mergeChsNlsy chs nlsy = Except.ok m) :
    ∀ r ∈ m.rows,
      (∃ rc ∈ chs.rows, rc.1 = r.1) ∧
      (∃ rn ∈ nlsy.rows, rn.1 = r.1) ∧
      (∃ a, ageColumnOf (joinedOf chs nlsy).cols = some a ∧
        ((∃ n : Int, cellAt r.2 a = Value.int n ∧ 5 ≤ n ∧ n ≤ 13) ∨
         (∃ q : ℚ, cellAt r.2 a = Value.num q ∧ 5 ≤ q ∧ q ≤ 13))) := by
  unfold mergeChsNlsy at hok
  by_cases h1 : chs.indexNames.length < 2
  · rw [if_pos h1] at hok
    exact absurd hok (by simp)
  rw [if_neg h1] at hok
  by_cases h2 : nlsy.indexNames.length < 2
  · rw [if_pos h2] at hok
    exact absurd hok (by simp)
  rw [if_neg h2] at hok
  by_cases h3 : (taggedChs chs nlsy).cols.filter
      (fun c => decide (c ∈ (taggedNlsy chs nlsy).cols)) = []
  swap
  · rw [if_pos (by simpa using h3)] at hok
    exact absurd hok (by simp)
  rw [if_neg (by simpa using h3)] at hok
  cases hac : ageColumnOf (joinedOf chs nlsy).cols with
  | none =>
    rw [hac] at hok
    exact absurd hok (by simp)
  | some a =>
    rw [hac] at hok
    have hm : { joinedOf chs nlsy with
        rows := (joinedOf chs nlsy).rows.filter
          (fun r => ageOk (cellAt r.2 a)) } = m := by
      exact Except.ok.inj hok
    intro r hr
    rw [← hm] at hr
    have hr' := List.mem_filter.mp hr
    obtain ⟨hrj, hage⟩ := hr'
    have hkeys : (∃ rc ∈ chs.rows, rc.1 = r.1) ∧
        (∃ rn ∈ nlsy.rows, rn.1 = r.1) := by
      simp only [joinedOf, innerJoin, taggedChs, taggedNlsy, renameFrame,
        List.mem_flatMap, List.mem_map, List.mem_filter] at hrj
      obtain ⟨ra, ⟨rc, hrc, hrceq⟩, rb, ⟨⟨rn, hrn, hrneq⟩, hkey⟩, hreq⟩ := hrj
      constructor
      · refine ⟨rc, hrc, ?_⟩
        rw [← hreq]
        rw [← hrceq]
      · refine ⟨rn, hrn, ?_⟩
        rw [← hreq]
        have : rb.1 = ra.1 := of_decide_eq_true hkey
        rw [← this, ← hrneq]
    refine ⟨hkeys.1, hkeys.2, a, rfl, ?_⟩
    cases hv : cellAt r.2 a with
    | int n =>
      rw [hv] at hage
      exact Or.inl ⟨n, rfl, of_decide_eq_true hage⟩
    | num q =>
      rw [hv] at hage
      exact Or.inr ⟨q, rfl, of_decide_eq_true hage⟩
    | na =>
      rw [hv] at hage
      exact absurd hage (by simp [ageOk])
    | str s =>
      rw [hv] at hage
      exact absurd hage (by simp [ageOk])
    | cat l =>
      rw [hv] at hage
      exact absurd hage (by simp [ageOk])

/-- Witness for C3: the surviving row of the concrete merge has its key in
both inputs. -/
theorem C3_merge_strict_subset_age_range_witness :
    (∃ rc ∈ c3Chs.rows, rc.1 = c3Row.1) ∧
    (∃ rn ∈ c3Nlsy.rows, rn.1 = c3Row.1) :=
  ⟨(C3_merge_strict_subset_age_range c3Chs c3Nlsy c3Merged (by decide) c3Row
      (by decide)).1,
   (C3_merge_strict_subset_age_range c3Chs c3Nlsy c3Merged (by decide) c3Row
      (by decide)).2.1⟩

theorem string_append_cancel {a b s : String} (h : a ++ s = b ++ s) : a = b := by
  have hd : a.data ++ s.data = b.data ++ s.data := by
    rw [← String.data_append, ← String.data_append, h]
  have hab := List.append_cancel_right hd
  cases a
  cases b
  exact congrArg String.mk hab

theorem findVal_of_mem_keys {β : Type} {l : List (String × β)} {c : String}
    (h : c ∈ l.map Prod.fst) : ∃ v, findVal l c = some v := by
  induction l with
  | nil => simp at h
  | cons e l ih =>
    by_cases he : e.1 = c
    · exact ⟨e.2, by simp [findVal, he]⟩
    · simp only [List.map_cons, List.mem_cons] at h
      cases h with
      | inl h => exact absurd h.symm he
      | inr h =>
        obtain ⟨v, hv⟩ := ih h
        exact ⟨v, by simp [findVal, he, hv]⟩

theorem tag_eq_iff {ov cols : List String} {sfx c k : String}
    (hc : c ∈ ov) (hccols : c ∈ cols)
    (hf : ∀ d ∈ ov, (d ++ sfx) ∉ cols) (hk : k ∈ cols) :
    (tagRename ov sfx k = c ++ sfx ↔ k = c) := by
  constructor
  · intro ht
    by_cases hov : k ∈ ov
    · rw [tagRename, if_pos hov] at ht
      exact string_append_cancel ht
    · rw [tagRename, if_neg hov] at ht
      exact absurd (ht ▸ hk) (hf c hc)
  · intro hkc
    subst hkc
    rw [tagRename, if_pos hc]

theorem merge_ok_inv (chs nlsy m : Frame)
    (hok : mergeChsNlsy chs nlsy = Except.ok m) :
    (taggedChs chs nlsy).cols.filter
      (fun c => decide (c ∈ (taggedNlsy chs nlsy).cols)) = [] ∧
    ∃ a, ageColumnOf (joinedOf chs nlsy).cols = some a ∧
      m = { joinedOf chs nlsy with
        rows := (joinedOf chs nlsy).rows.filter
          (fun r => ageOk (cellAt r.2 a)) } := by
  unfold mergeChsNlsy at hok
  by_cases h1 : chs.indexNames.length < 2
  · rw [if_pos h1] at hok
    exact absurd hok (by simp)
  rw [if_neg h1] at hok
  by_cases h2 : nlsy.indexNames.length < 2
  · rw [if_pos h2] at hok
    exact absurd hok (by simp)
  rw [if_neg h2] at hok
  by_cases h3 : (taggedChs chs nlsy).cols.filter
      (fun c => decide (c ∈ (taggedNlsy chs nlsy).cols)) = []
  swap
  · rw [if_pos (by simpa using h3)] at hok
    exact absurd hok (by simp)
  rw [if_neg (by simpa using h3)] at hok
  cases hac : ageColumnOf (joinedOf chs nlsy).cols with
  | none =>
    rw [hac] at hok
    exact absurd hok (by simp)
  | some a =>
    rw [hac] at hok
    exact ⟨h3, a, rfl, (Except.ok.inj hok).symm⟩

/-- Claim C5, counterexample: both inputs also contain a column literally
named `momid_chs`, which collides; after renaming, the CHS column `momid`
becomes `momid_chs`, so the merged table still contains the unqualified
colliding name `momid_chs` — now holding the CHS `momid` data (11) rather
than the original CHS `momid_chs` data (22), contradicting the claim that
no unqualified version of a colliding name survives. -/
theorem C5_counterexample_tagged_name_reappears :
    "momid_chs" ∈ overlapOf c5Chs c5Nlsy ∧
    mergeChsNlsy c5Chs c5Nlsy = Except.ok c5Merged ∧
    "momid_chs" ∈ c5Merged.cols ∧
    cellAt c5MergedRow.2 "momid_chs" = Value.int 11 ∧
    (∀ r ∈ c5Chs.rows, cellAt r.2 "momid_chs" = Value.int 22) := by
  decide

/-- Claim C5 (amended): for every colliding column name `c`, both tagged
variants `c_chs` and `c_nlsy` are columns of the merged table and every
merged row carries, under those names, the original CHS and NLSY values of
`c` from the matching input rows, so no column's data is lost; moreover
the unqualified name `c` is absent from the merged table provided no
colliding name with a source tag appended is itself a column of the
corresponding input (without that proviso the tagged form of another
colliding name can re-occupy `c`, as the counterexample shows). -/
theorem C5_collision_rename_amended (chs nlsy m : Frame) (c : String)
    (hwc : ∀ r ∈ chs.rows, r.2.map Prod.fst = chs.cols)
    (hwn : ∀ r ∈ nlsy.rows, r.2.map Prod.fst = nlsy.cols)
    (hc : c ∈ overlapOf chs nlsy)
    (hfc : ∀ d ∈ overlapOf chs nlsy, (d ++ "_chs") ∉ chs.cols)
    (hfn : ∀ d ∈ overlapOf chs nlsy, (d ++ "_nlsy") ∉ nlsy.cols)
    (hok : mergeChsNlsy chs nlsy = Except.ok m) :
    (c ++ "_chs") ∈ m.cols ∧
    (c ++ "_nlsy") ∈ m.cols ∧
    c ∉ m.cols ∧
    ∀ r ∈ m.rows,
      (∃ rc ∈ chs.rows, rc.1 = r.1 ∧
        cellAt r.2 (c ++ "_chs") = cellAt rc.2 c) ∧
      (∃ rn ∈ nlsy.rows, rn.1 = r.1 ∧
        cellAt r.2 (c ++ "_nlsy") = cellAt rn.2 c) := by
  obtain ⟨hdisj0, a, hac, hm⟩ := merge_ok_inv chs nlsy m hok
  have hdisj : ∀ x ∈ (taggedChs chs nlsy).cols,
      x ∉ (taggedNlsy chs nlsy).cols := by
    intro x hx hx2
    have hfil := List.filter_eq_nil_iff.mp hdisj0 x hx
    simp [hx2] at hfil
  have hcc : c ∈ chs.cols := (List.mem_filter.mp hc).1
  have hcn : c ∈ nlsy.cols := of_decide_eq_true (List.mem_filter.mp hc).2
  have hmcols : m.cols =
      (taggedChs chs nlsy).cols ++ (taggedNlsy chs nlsy).cols := by
    rw [hm]
    rfl
  have hchsM : (c ++ "_chs") ∈ (taggedChs chs nlsy).cols := by
    simp only [taggedChs, renameFrame, List.mem_map]
    exact ⟨c, hcc, by rw [tagRename, if_pos hc]⟩
  have hnlsyM : (c ++ "_nlsy") ∈ (taggedNlsy chs nlsy).cols := by
    simp only [taggedNlsy, renameFrame, List.mem_map]
    exact ⟨c, hcn, by rw [tagRename, if_pos hc]⟩
  refine ⟨?_, ?_, ?_, ?_⟩
  · rw [hmcols]
    exact List.mem_append_left _ hchsM
  · rw [hmcols]
    exact List.mem_append_right _ hnlsyM
  · rw [hmcols]
    intro hmem
    cases List.mem_append.mp hmem with
    | inl hmem =>
      simp only [taggedChs, renameFrame, List.mem_map] at hmem
      obtain ⟨k, hk, htag⟩ := hmem
      by_cases hov : k ∈ overlapOf chs nlsy
      · rw [tagRename, if_pos hov] at htag
        exact hfc k hov (htag ▸ hcc)
      · rw [tagRename, if_neg hov] at htag
        exact hov (htag ▸ hc)
    | inr hmem =>
      simp only [taggedNlsy, renameFrame, List.mem_map] at hmem
      obtain ⟨k, hk, htag⟩ := hmem
      by_cases hov : k ∈ overlapOf chs nlsy
      · rw [tagRename, if_pos hov] at htag
        exact hfn k hov (htag ▸ hcn)
      · rw [tagRename, if_neg hov] at htag
        exact hov (htag ▸ hc)
  · intro r hr
    rw [hm] at hr
    have hrj := (List.mem_filter.mp hr).1
    simp only [joinedOf, innerJoin, taggedChs, taggedNlsy, renameFrame,
      List.mem_flatMap, List.mem_map, List.mem_filter] at hrj
    obtain ⟨ra, ⟨rc, hrc, hrceq⟩, rb, ⟨⟨rn, hrn, hrneq⟩, hkey⟩, hreq⟩ := hrj
    have hr1 : r.1 = ra.1 := by
      rw [← hreq]
    have hr2 : r.2 = ra.2 ++ rb.2 := by
      rw [← hreq]
    have hra2 : ra.2 = rc.2.map
        (fun e => (tagRename (overlapOf chs nlsy) "_chs" e.1, e.2)) := by
      rw [← hrceq]
    have hrb2 : rb.2 = rn.2.map
        (fun e => (tagRename (overlapOf chs nlsy) "_nlsy" e.1, e.2)) := by
      rw [← hrneq]
    have hkeyc : ∀ e ∈ rc.2, e.1 ∈ chs.cols := by
      intro e he
      rw [← hwc rc hrc]
      exact List.mem_map_of_mem Prod.fst he
    have hkeyn : ∀ e ∈ rn.2, e.1 ∈ nlsy.cols := by
      intro e he
      rw [← hwn rn hrn]
      exact List.mem_map_of_mem Prod.fst he
    have hfindc : findVal ra.2 (c ++ "_chs") = findVal rc.2 c := by
      rw [hra2]
      exact findVal_map_ren _ c (c ++ "_chs") rc.2
        (fun e he => tag_eq_iff hc hcc hfc (hkeyc e he))
    have hfindn : findVal rb.2 (c ++ "_nlsy") = findVal rn.2 c := by
      rw [hrb2]
      exact findVal_map_ren _ c (c ++ "_nlsy") rn.2
        (fun e he => tag_eq_iff hc hcn hfn (hkeyn e he))
    have hnotleft : findVal ra.2 (c ++ "_nlsy") = none := by
      apply findVal_eq_none
      intro e he hecontra
      have hein : e.1 ∈ (taggedChs chs nlsy).cols := by
        simp only [taggedChs, renameFrame, List.mem_map]
        rw [hra2] at he
        obtain ⟨e', he', heq⟩ := List.mem_map.mp he
        exact ⟨e'.1, hkeyc e' he', by rw [← heq]⟩
      exact hdisj e.1 hein (hecontra ▸ hnlsyM)
    refine ⟨⟨rc, hrc, ?_, ?_⟩, ⟨rn, hrn, ?_, ?_⟩⟩
    · rw [hr1, ← hrceq]
    · rw [cellAt, cellAt, hr2, findVal_append, hfindc]
      obtain ⟨v, hv⟩ := findVal_of_mem_keys
        (c := c) (l := rc.2) (by rw [hwc rc hrc]; exact hcc)
      rw [hv]
    · rw [hr1]
      have hrb1 : rn.1 = rb.1 := by rw [← hrneq]
      rw [hrb1]
      exact of_decide_eq_true hkey
    · rw [cellAt, cellAt, hr2, findVal_append, hnotleft, hfindn]

/-- Witness for C5: the plain `momid` collision scenario, where the tagged
names are fresh; both tagged variants exist and the unqualified `momid` is
gone from the merged table. -/
theorem C5_collision_rename_amended_witness :
    ("momid" ++ "_chs") ∈ c5wMerged.cols ∧
    ("momid" ++ "_nlsy") ∈ c5wMerged.cols ∧
    "momid" ∉ c5wMerged.cols :=
  (fun h => ⟨h.1, h.2.1, h.2.2.1⟩)
    (C5_collision_rename_amended c5wChs c5wNlsy c5wMerged "momid"
      (by decide) (by decide) (by decide) (by decide) (by decide) (by decide))

theorem astypeInt64_error {v : Value} {e : String}
    (h : astypeInt64 v = Except.error e) : e = cannotConvertMsg := by
  cases v with
  | na => simp [astypeInt64] at h
  | int n => simp [astypeInt64] at h
  | str s =>
    rw [astypeInt64] at h
    cases hs : s.toInt? with
    | some n => rw [hs] at h; simp at h
    | none => rw [hs] at h; exact (Except.error.inj h).symm
  | cat l => exact (Except.error.inj h).symm
  | num q =>
    rw [astypeInt64] at h
    by_cases hq : q.den = 1
    · rw [if_pos hq] at h; simp at h
    · rw [if_neg hq] at h; exact (Except.error.inj h).symm

theorem mapExcept_error_mem {α β : Type} {f : α → Except String β}
    {l : List α} {e : String} (h : mapExcept f l = Except.error e) :
    ∃ x ∈ l, f x = Except.error e := by
  induction l with
  | nil => simp [mapExcept] at h
  | cons x xs ih =>
    rw [mapExcept] at h
    cases hx : f x with
    | error e' =>
      rw [hx] at h
      have he : e' = e := Except.error.inj h
      subst he
      exact ⟨x, List.mem_cons_self x xs, hx⟩
    | ok y =>
      rw [hx] at h
      dsimp only at h
      cases hxs : mapExcept f xs with
      | error e' =>
        rw [hxs] at h
        have he : e' = e := Except.error.inj h
        subst he
        obtain ⟨z, hz, hfz⟩ := ih hxs
        exact ⟨z, List.mem_cons_of_mem x hz, hfz⟩
      | ok ys => rw [hxs] at h; simp at h

theorem astypeColRow_error {c : String} {r : List (String × Value)}
    {e : String} (h : astypeColRow c r = Except.error e) :
    e = cannotConvertMsg := by
  obtain ⟨x, _, hx⟩ := mapExcept_error_mem h
  by_cases hxc : x.1 = c
  · rw [if_pos hxc] at hx
    cases hv : astypeInt64 x.2 with
    | error e' =>
      rw [hv] at hx
      exact (Except.error.inj hx) ▸ astypeInt64_error hv
    | ok v => rw [hv] at hx; simp at hx
  · rw [if_neg hxc] at hx
    simp at hx

theorem astypeFrameCol_error {c : String} {cols : List String}
    {rows : List (List (String × Value))} {e : String}
    (h : astypeFrameCol c cols rows = Except.error e) :
    e = keyErrorMsg c ∨ e = cannotConvertMsg := by
  rw [astypeFrameCol] at h
  by_cases hc : c ∈ cols
  · rw [if_pos hc] at h
    obtain ⟨x, _, hx⟩ := mapExcept_error_mem h
    exact Or.inr (astypeColRow_error hx)
  · rw [if_neg hc] at h
    exact Or.inl (Except.error.inj h).symm

theorem astypeStage_error {rCols : List String}
    {rows : List (List (String × Value))} {e : String}
    (h : astypeStage rCols rows = Except.error e) :
    e = cannotConvertMsg ∨ e = keyErrorMsg "childid" ∨
    e = keyErrorMsg "year" ∨ e = keyErrorMsg "momid" ∨
    e = keyErrorMsg "birth_order" := by
  rw [astypeStage] at h
  cases h1 : astypeFrameCol "childid" rCols rows with
  | error e' =>
    rw [h1] at h
    have he : e' = e := Except.error.inj h
    subst he
    cases astypeFrameCol_error h1 with
    | inl hh => exact Or.inr (Or.inl hh)
    | inr hh => exact Or.inl hh
  | ok r1 =>
    rw [h1] at h
    dsimp only at h
    cases h2 : astypeFrameCol "year" rCols r1 with
    | error e' =>
      rw [h2] at h
      have he : e' = e := Except.error.inj h
      subst he
      cases astypeFrameCol_error h2 with
      | inl hh => exact Or.inr (Or.inr (Or.inl hh))
      | inr hh => exact Or.inl hh
    | ok r2 =>
      rw [h2] at h
      dsimp only at h
      cases h3 : (if "momid" ∈ rCols then astypeFrameCol "momid" rCols r2
          else Except.ok r2) with
      | error e' =>
        rw [h3] at h
        have he' : e' = e := Except.error.inj h
        subst he'
        by_cases hm : "momid" ∈ rCols
        · rw [if_pos hm] at h3
          cases astypeFrameCol_error h3 with
          | inl hh => exact Or.inr (Or.inr (Or.inr (Or.inl hh)))
          | inr hh => exact Or.inl hh
        · rw [if_neg hm] at h3
          simp at h3
      | ok r3 =>
        rw [h3] at h
        dsimp only at h
        by_cases hb : "birth_order" ∈ rCols
        · rw [if_pos hb] at h
          cases astypeFrameCol_error h with
          | inl hh => exact Or.inr (Or.inr (Or.inr (Or.inr hh)))
          | inr hh => exact Or.inl hh
        · rw [if_neg hb] at h
          simp at h

/-- Claim C8: `_clean_one_wave` raises the structural childid error if and
only if the table resulting from the subset-and-rename steps lacks a
`childid` column, and the needed-columns computation restricts itself to
the columns actually present in the wave's extract, so a metadata row
whose raw name is absent never causes an error by itself. -/
theorem C8_childid_precondition (raw : RawTable) (year : Int)
    (info : List MetaRow) :
    (cleanOneWave raw year info = Except.error childidMissingMsg ↔
      "childid" ∉ renamedColsOf raw year info) ∧
    (∀ c ∈ colsNeededOf raw year info, c ∈ raw.cols) := by
  constructor
  · constructor
    · intro h hchild
      rw [cleanOneWave, if_pos hchild] at h
      cases hs : astypeStage (renamedColsOf raw year info)
          (raw.rows.map (harmonizedRowOf raw year info)) with
      | error e =>
        rw [hs] at h
        have he : e = childidMissingMsg := Except.error.inj h
        subst he
        rcases astypeStage_error hs with hh | hh | hh | hh | hh <;>
          revert hh <;> decide
      | ok r4 =>
        rw [hs] at h
        dsimp only at h
        by_cases hchk : (scoreColsOf raw year info).filter
            (fun c => decide (c ∈ renamedColsOf raw year info)) = []
        · rw [if_pos hchk] at h
          simp at h
        · rw [if_neg hchk] at h
          have he := Except.error.inj h
          revert he
          decide
    · intro hchild
      rw [cleanOneWave, if_neg hchild]
  · intro c hc
    have := List.mem_filter.mp hc
    exact of_decide_eq_true this.2

/-- Witness for C8: on a concrete wave whose metadata names an absent raw
variable, cleaning succeeds and every needed column is present. -/
theorem C8_childid_precondition_witness :
    ("C0000100" : String) ∈ c8Raw.cols ∧
    (cleanOneWave c8Raw 1986 c8Info).isOk = true :=
  ⟨(C8_childid_precondition c8Raw 1986 c8Info).2 "C0000100" (by decide),
   by decide⟩

theorem findVal_mem {β : Type} {l : List (String × β)} {c : String} {v : β}
    (h : findVal l c = some v) : (c, v) ∈ l := by
  induction l with
  | nil => simp [findVal] at h
  | cons e l ih =>
    rw [findVal] at h
    by_cases he : e.1 = c
    · rw [if_pos he] at h
      have hv : e.2 = v := Option.some.inj h
      have : (c, v) = e := by
        rw [← he, ← hv]
      rw [this]
      exact List.mem_cons_self e l
    · rw [if_neg he] at h
      exact List.mem_cons_of_mem e (ih h)

theorem mapExcept_ok_forall2 {α β : Type} {f : α → Except String β} :
    ∀ {l : List α} {l' : List β}, mapExcept f l = Except.ok l' →
      List.Forall₂ (fun y x => f x = Except.ok y) l' l := by
  intro l
  induction l with
  | nil =>
    intro l' h
    rw [mapExcept] at h
    rw [← Except.ok.inj h]
    exact List.Forall₂.nil
  | cons x xs ih =>
    intro l' h
    rw [mapExcept] at h
    cases hx : f x with
    | error e => rw [hx] at h; simp at h
    | ok y =>
      rw [hx] at h
      dsimp only at h
      cases hxs : mapExcept f xs with
      | error e => rw [hxs] at h; simp at h
      | ok ys =>
        rw [hxs] at h
        rw [← Except.ok.inj h]
        exact List.Forall₂.cons hx (ih hxs)

theorem forall2_trans {α : Type} {P Q R : α → α → Prop}
    (hc : ∀ a b c, P a b → Q b c → R a c) :
    ∀ {l1 l2 l3 : List α}, List.Forall₂ P l1 l2 → List.Forall₂ Q l2 l3 →
      List.Forall₂ R l1 l3 := by
  intro l1 l2 l3 h12
  induction h12 generalizing l3 with
  | nil =>
    intro h23
    cases h23
    exact List.Forall₂.nil
  | cons hab _ ih =>
    intro h23
    cases h23 with
    | cons hbc h' => exact List.Forall₂.cons (hc _ _ _ hab hbc) (ih h')

theorem forall2_refl_of {α : Type} {R : α → α → Prop}
    (hrefl : ∀ a, R a a) : ∀ l : List α, List.Forall₂ R l l := by
  intro l
  induction l with
  | nil => exact List.Forall₂.nil
  | cons x xs ih => exact List.Forall₂.cons (hrefl x) ih

theorem forall2_zip_mem {α β : Type} {R : α → β → Prop} {l1 : List α}
    {l2 : List β} (h : List.Forall₂ R l1 l2) :
    ∀ p ∈ l1.zip l2, R p.1 p.2 := by
  induction h with
  | nil => intro p hp; simp [List.zip] at hp
  | cons hab _ ih =>
    intro p hp
    rw [List.zip_cons_cons] at hp
    cases List.mem_cons.mp hp with
    | inl h => rw [h]; exact hab
    | inr h => exact ih p h

theorem forall2_mem_left {α β : Type} {R : α → β → Prop} {l1 : List α}
    {l2 : List β} (h : List.Forall₂ R l1 l2) :
    ∀ a ∈ l1, ∃ b ∈ l2, R a b := by
  induction h with
  | nil => intro a ha; simp at ha
  | cons hab _ ih =>
    intro a ha
    cases List.mem_cons.mp ha with
    | inl h' => exact ⟨_, List.mem_cons_self _ _, h' ▸ hab⟩
    | inr h' =>
      obtain ⟨b, hb, hr⟩ := ih a h'
      exact ⟨b, List.mem_cons_of_mem _ hb, hr⟩

theorem astypeColRow_ok {c : String} {r r' : List (String × Value)}
    (h : astypeColRow c r = Except.ok r') :
    r'.map Prod.fst = r.map Prod.fst ∧
    (∀ c', c' ≠ c → findVal r' c' = findVal r c') ∧
    (∀ y : Int, findVal r c = some (Value.int y) →
      findVal r' c = some (Value.int y)) := by
  have hf := mapExcept_ok_forall2 h
  clear h
  induction hf with
  | nil => exact ⟨rfl, fun _ _ => rfl, fun y hy => by simp [findVal] at hy⟩
  | @cons e' e tl' tl hfe _ ih =>
    by_cases he : e.1 = c
    · rw [if_pos he] at hfe
      cases hv : astypeInt64 e.2 with
      | error msg => rw [hv] at hfe; simp at hfe
      | ok v =>
        rw [hv] at hfe
        have he' : e' = (e.1, v) := (Except.ok.inj hfe).symm
        subst he'
        refine ⟨by simp [ih.1], ?_, ?_⟩
        · intro c' hc'
          have hne : ¬ e.1 = c' := fun hh => hc' (hh ▸ he)
          show (if e.1 = c' then some v else findVal tl' c') =
            (if e.1 = c' then some e.2 else findVal tl c')
          rw [if_neg hne, if_neg hne]
          exact ih.2.1 c' hc'
        · intro y hy
          have hy2 : e.2 = Value.int y := by
            have hh : (if e.1 = c then some e.2 else findVal tl c) =
              some (Value.int y) := hy
            rw [if_pos he] at hh
            exact Option.some.inj hh
          rw [hy2] at hv
          have hvv : Value.int y = v := by
            simpa [astypeInt64] using hv
          show (if e.1 = c then some v else findVal tl' c) =
            some (Value.int y)
          rw [if_pos he, ← hvv]
    · rw [if_neg he] at hfe
      have he' : e' = e := (Except.ok.inj hfe).symm
      refine ⟨?_, ?_, ?_⟩
      · rw [he']
        simp [ih.1]
      · intro c' hc'
        rw [he']
        show (if e.1 = c' then some e.2 else findVal tl' c') =
          (if e.1 = c' then some e.2 else findVal tl c')
        by_cases hec : e.1 = c'
        · rw [if_pos hec, if_pos hec]
        · rw [if_neg hec, if_neg hec]
          exact ih.2.1 c' hc'
      · intro y hy
        have hy' : findVal tl c = some (Value.int y) := by
          have hh : (if e.1 = c then some e.2 else findVal tl c) =
            some (Value.int y) := hy
          rwa [if_neg he] at hh
        rw [he']
        show (if e.1 = c then some e.2 else findVal tl' c) =
          some (Value.int y)
        rw [if_neg he]
        exact ih.2.2 y hy'

theorem astypeFrameCol_rel {c : String} {cols : List String}
    {rows rows' : List (List (String × Value))}
    (h : astypeFrameCol c cols rows = Except.ok rows') :
    List.Forall₂ (fun ar hr =>
      ar.map Prod.fst = hr.map Prod.fst ∧
      (∀ c', c' ≠ c → findVal ar c' = findVal hr c') ∧
      (∀ y : Int, findVal hr "year" = some (Value.int y) →
        findVal ar "year" = some (Value.int y))) rows' rows := by
  rw [astypeFrameCol] at h
  by_cases hc : c ∈ cols
  · rw [if_pos hc] at h
    refine (mapExcept_ok_forall2 h).imp ?_
    intro ar hr hfe
    obtain ⟨h1, h2, h3⟩ := astypeColRow_ok hfe
    refine ⟨h1, h2, ?_⟩
    intro y hy
    by_cases hyc : "year" = c
    · subst hyc
      exact h3 y hy
    · rw [h2 "year" hyc]
      exact hy
  · rw [if_neg hc] at h
    simp at h

theorem astypeStage_rel {rCols : List String}
    {rows rows' : List (List (String × Value))}
    (h : astypeStage rCols rows = Except.ok rows') :
    List.Forall₂ (fun ar hr =>
      ar.map Prod.fst = hr.map Prod.fst ∧
      (∀ c', c' ≠ "childid" → c' ≠ "year" → c' ≠ "momid" →
        c' ≠ "birth_order" → findVal ar c' = findVal hr c') ∧
      (∀ y : Int, findVal hr "year" = some (Value.int y) →
        findVal ar "year" = some (Value.int y))) rows' rows := by
  rw [astypeStage] at h
  cases h1 : astypeFrameCol "childid" rCols rows with
  | error e => rw [h1] at h; simp at h
  | ok r1 =>
    rw [h1] at h
    dsimp only at h
    cases h2 : astypeFrameCol "year" rCols r1 with
    | error e => rw [h2] at h; simp at h
    | ok r2 =>
      rw [h2] at h
      dsimp only at h
      cases h3 : (if "momid" ∈ rCols then astypeFrameCol "momid" rCols r2
          else Except.ok r2) with
      | error e => rw [h3] at h; simp at h
      | ok r3 =>
        rw [h3] at h
        dsimp only at h
        have hrel1 := astypeFrameCol_rel h1
        have hrel2 := astypeFrameCol_rel h2
        have hrel3 : List.Forall₂ (fun ar hr =>
            ar.map Prod.fst = hr.map Prod.fst ∧
            (∀ c', c' ≠ "momid" → findVal ar c' = findVal hr c') ∧
            (∀ y : Int, findVal hr "year" = some (Value.int y) →
              findVal ar "year" = some (Value.int y))) r3 r2 := by
          by_cases hm : "momid" ∈ rCols
          · rw [if_pos hm] at h3
            exact astypeFrameCol_rel h3
          · rw [if_neg hm] at h3
            rw [← Except.ok.inj h3]
            exact forall2_refl_of (fun a => ⟨rfl, fun _ _ => rfl, fun _ hy => hy⟩) r2
        have hrel4 : List.Forall₂ (fun ar hr =>
            ar.map Prod.fst = hr.map Prod.fst ∧
            (∀ c', c' ≠ "birth_order" → findVal ar c' = findVal hr c') ∧
            (∀ y : Int, findVal hr "year" = some (Value.int y) →
              findVal ar "year" = some (Value.int y))) rows' r3 := by
          by_cases hb : "birth_order" ∈ rCols
          · rw [if_pos hb] at h
            exact astypeFrameCol_rel h
          · rw [if_neg hb] at h
            rw [← Except.ok.inj h]
            exact forall2_refl_of (fun a => ⟨rfl, fun _ _ => rfl, fun _ hy => hy⟩) r3
        have h43 := forall2_trans (P := fun ar hr =>
            ar.map Prod.fst = hr.map Prod.fst ∧
            (∀ c', c' ≠ "birth_order" → findVal ar c' = findVal hr c') ∧
            (∀ y : Int, findVal hr "year" = some (Value.int y) →
              findVal ar "year" = some (Value.int y)))
          (Q := fun ar hr =>
            ar.map Prod.fst = hr.map Prod.fst ∧
            (∀ c', c' ≠ "momid" → findVal ar c' = findVal hr c') ∧
            (∀ y : Int, findVal hr "year" = some (Value.int y) →
              findVal ar "year" = some (Value.int y)))
          (R := fun ar hr =>
            ar.map Prod.fst = hr.map Prod.fst ∧
            (∀ c', c' ≠ "momid" → c' ≠ "birth_order" →
              findVal ar c' = findVal hr c') ∧
            (∀ y : Int, findVal hr "year" = some (Value.int y) →
              findVal ar "year" = some (Value.int y)))
          (fun a b c hab hbc =>
            ⟨hab.1.trans hbc.1,
             fun c' hm hbm => (hab.2.1 c' hbm).trans (hbc.2.1 c' hm),
             fun y hy => hab.2.2 y (hbc.2.2 y hy)⟩) hrel4 hrel3
        have h432 := forall2_trans (P := fun ar hr =>
            ar.map Prod.fst = hr.map Prod.fst ∧
            (∀ c', c' ≠ "momid" → c' ≠ "birth_order" →
              findVal ar c' = findVal hr c') ∧
            (∀ y : Int, findVal hr "year" = some (Value.int y) →
              findVal ar "year" = some (Value.int y)))
          (Q := fun ar hr =>
            ar.map Prod.fst = hr.map Prod.fst ∧
            (∀ c', c' ≠ "year" → findVal ar c' = findVal hr c') ∧
            (∀ y : Int, findVal hr "year" = some (Value.int y) →
              findVal ar "year" = some (Value.int y)))
          (R := fun ar hr =>
            ar.map Prod.fst = hr.map Prod.fst ∧
            (∀ c', c' ≠ "year" → c' ≠ "momid" → c' ≠ "birth_order" →
              findVal ar c' = findVal hr c') ∧
            (∀ y : Int, findVal hr "year" = some (Value.int y) →
              findVal ar "year" = some (Value.int y)))
          (fun a b c hab hbc =>
            ⟨hab.1.trans hbc.1,
             fun c' hy hm hbm => (hab.2.1 c' hm hbm).trans (hbc.2.1 c' hy),
             fun y hy => hab.2.2 y (hbc.2.2 y hy)⟩) h43 hrel2
        exact forall2_trans (P := fun ar hr =>
            ar.map Prod.fst = hr.map Prod.fst ∧
            (∀ c', c' ≠ "year" → c' ≠ "momid" → c' ≠ "birth_order" →
              findVal ar c' = findVal hr c') ∧
            (∀ y : Int, findVal hr "year" = some (Value.int y) →
              findVal ar "year" = some (Value.int y)))
          (Q := fun ar hr =>
            ar.map Prod.fst = hr.map Prod.fst ∧
            (∀ c', c' ≠ "childid" → findVal ar c' = findVal hr c') ∧
            (∀ y : Int, findVal hr "year" = some (Value.int y) →
              findVal ar "year" = some (Value.int y)))
          (fun a b c hab hbc =>
            ⟨hab.1.trans hbc.1,
             fun c' hch hy hm hbm => (hab.2.1 c' hy hm hbm).trans (hbc.2.1 c' hch),
             fun y hy => hab.2.2 y (hbc.2.2 y hy)⟩) h432 hrel1

theorem renameMap_mem {info : List MetaRow} {year : Int} {p : String × String}
    (h : p ∈ renameMapOf info year) :
    ∃ mr ∈ info, p.1 = mr.nlsy_name ∧ p.2 = mr.readable_name := by
  rw [renameMapOf] at h
  cases List.mem_append.mp h with
  | inl h =>
    obtain ⟨mr, hmr, hp⟩ := List.mem_map.mp h
    exact ⟨mr, (List.mem_filter.mp hmr).1, by rw [← hp], by rw [← hp]⟩
  | inr h =>
    obtain ⟨mr, hmr, hp⟩ := List.mem_map.mp h
    exact ⟨mr, (List.mem_filter.mp hmr).1, by rw [← hp], by rw [← hp]⟩

theorem colsNeeded_mem_meta {raw : RawTable} {year : Int}
    {info : List MetaRow} {c : String} (h : c ∈ colsNeededOf raw year info) :
    ∃ mr ∈ info, c = mr.nlsy_name := by
  rw [colsNeededOf] at h
  have h1 := (List.mem_filter.mp h).1
  cases List.mem_append.mp h1 with
  | inl h2 =>
    obtain ⟨mr, hmr, hp⟩ := List.mem_map.mp h2
    exact ⟨mr, (List.mem_filter.mp hmr).1, by rw [← hp]⟩
  | inr h2 =>
    obtain ⟨mr, hmr, hp⟩ := List.mem_map.mp h2
    exact ⟨mr, (List.mem_filter.mp hmr).1, by rw [← hp]⟩

theorem itemColsCat_mem_meta {raw : RawTable} {year : Int}
    {info : List MetaRow} {c : String}
    (h : c ∈ itemColsCatOf raw year info) :
    ∃ mr ∈ info, c = mr.readable_name := by
  rw [itemColsCatOf, itemCleanOf] at h
  have h1 := (List.mem_filter.mp h).1
  obtain ⟨mr, hmr, hp⟩ := List.mem_map.mp h1
  exact ⟨mr, (List.mem_filter.mp hmr).1, by rw [← hp]⟩

theorem applyRename_year {info : List MetaRow} {year : Int}
    (hyear : ∀ mr ∈ info, mr.nlsy_name ≠ "year") :
    applyRename info year "year" = "year" := by
  rw [applyRename]
  have hnone : findVal (renameMapOf info year).reverse "year" = none := by
    apply findVal_eq_none
    intro e he hec
    obtain ⟨mr, hmr, h1, _⟩ := renameMap_mem (List.mem_reverse.mp he)
    rw [h1] at hec
    exact hyear mr hmr hec
  rw [hnone]
  rfl

theorem applyRename_ne_year {info : List MetaRow} {year : Int} {c : String}
    (hyear : ∀ mr ∈ info, mr.nlsy_name ≠ "year" ∧ mr.readable_name ≠ "year")
    (hc : ∃ mr ∈ info, c = mr.nlsy_name) :
    applyRename info year c ≠ "year" := by
  rw [applyRename]
  cases hf : findVal (renameMapOf info year).reverse c with
  | some v =>
    obtain ⟨mr, hmr, _, h2⟩ :=
      renameMap_mem (List.mem_reverse.mp (findVal_mem hf))
    have h2' : v = mr.readable_name := h2
    show v ≠ "year"
    rw [h2']
    exact (hyear mr hmr).2
  | none =>
    obtain ⟨mr, hmr, hcm⟩ := hc
    show c ≠ "year"
    rw [hcm]
    exact (hyear mr hmr).1

theorem map_fst_harmonize (items : List String)
    (l : List (String × Value)) :
    (l.map (fun e => if e.1 ∈ items then (e.1, harmonizeCell e.2) else e)).map
        Prod.fst = l.map Prod.fst := by
  induction l with
  | nil => rfl
  | cons e l ih =>
    by_cases h : e.1 ∈ items
    · simp [h, ih]
    · simp [h, ih]

theorem harmonizedRow_year (raw : RawTable) (year : Int)
    (info : List MetaRow)
    (hyear : ∀ mr ∈ info, mr.nlsy_name ≠ "year" ∧ mr.readable_name ≠ "year")
    (r : List (String × Value)) :
    findVal (harmonizedRowOf raw year info r) "year" =
      some (Value.int year) := by
  rw [harmonizedRowOf, renamedRowOf, subsetRowOf, List.map_append,
    List.map_append, findVal_append]
  have hleft : findVal ((((colsNeededOf raw year info).map
      (fun c => (c, cellAt r c))).map
        (fun e => (applyRename info year e.1, e.2))).map
          (fun e => if e.1 ∈ itemColsCatOf raw year info
            then (e.1, harmonizeCell e.2) else e)) "year" = none := by
    apply findVal_eq_none
    intro e he hec
    simp only [List.map_map, List.mem_map] at he
    obtain ⟨cc, hcc, hee⟩ := he
    have hkey : e.1 = applyRename info year cc := by
      rw [← hee]
      by_cases hh : applyRename info year cc ∈ itemColsCatOf raw year info <;>
        simp [hh]
    rw [hkey] at hec
    exact applyRename_ne_year hyear (colsNeeded_mem_meta hcc) hec
  rw [hleft]
  have hren : applyRename info year "year" = "year" :=
    applyRename_year (fun mr hmr => (hyear mr hmr).1)
  have hni : "year" ∉ itemColsCatOf raw year info := by
    intro hmem
    obtain ⟨mr, hmr, hcm⟩ := itemColsCat_mem_meta hmem
    exact (hyear mr hmr).2 hcm.symm
  simp only [List.map_cons, List.map_nil, hren, if_neg hni]
  simp [findVal]

theorem cleanOneWave_ok_inv {raw : RawTable} {year : Int}
    {info : List MetaRow} {t : Frame}
    (h : cleanOneWave raw year info = Except.ok t) :
    "childid" ∈ renamedColsOf raw year info ∧
    ∃ r4, astypeStage (renamedColsOf raw year info)
        (raw.rows.map (harmonizedRowOf raw year info)) = Except.ok r4 ∧
      (scoreColsOf raw year info).filter
        (fun c => decide (c ∈ renamedColsOf raw year info)) = [] ∧
      t.rows = (r4.zip (raw.rows.map (harmonizedRowOf raw year info))).map
        (fun rr =>
          ([cellAt rr.1 "childid", cellAt rr.1 "year"],
           rr.1.filter
               (fun e => decide (¬ (e.1 = "childid" ∨ e.1 = "year"))) ++
             scoreEntriesOfRow raw year info rr.2)) := by
  rw [cleanOneWave] at h
  by_cases hchild : "childid" ∈ renamedColsOf raw year info
  · rw [if_pos hchild] at h
    cases hs : astypeStage (renamedColsOf raw year info)
        (raw.rows.map (harmonizedRowOf raw year info)) with
    | error e => rw [hs] at h; simp at h
    | ok r4 =>
      rw [hs] at h
      dsimp only at h
      by_cases hchk : (scoreColsOf raw year info).filter
          (fun c => decide (c ∈ renamedColsOf raw year info)) = []
      · rw [if_pos hchk] at h
        refine ⟨hchild, r4, rfl, hchk, ?_⟩
        rw [← Except.ok.inj h]
      · rw [if_neg hchk] at h
        simp at h
  · rw [if_neg hchild] at h
    simp at h

theorem insertRow_mem {x a : List Value × List (String × Value)}
    {l : List (List Value × List (String × Value))} :
    a ∈ insertRow x l ↔ a = x ∨ a ∈ l := by
  induction l with
  | nil => simp [insertRow]
  | cons y ys ih =>
    rw [insertRow]
    by_cases h : rowKeyLe y x = true
    · rw [if_pos h]
      simp [ih]
      tauto
    · rw [if_neg h]
      simp

theorem sortRows_mem {a : List Value × List (String × Value)}
    {l : List (List Value × List (String × Value))} :
    a ∈ sortRows l ↔ a ∈ l := by
  induction l with
  | nil => simp [sortRows]
  | cons x xs ih =>
    rw [sortRows, insertRow_mem]
    simp [ih]

/-- Claim C6, counterexample: a raw table in which the same child id
appears twice produces, through `manage_nlsy_data`, a long table in which
the (child, year) pair (1, 1986) occupies two rows; nothing is flagged —
the function returns normally with the duplicate rows kept. -/
theorem C6_counterexample_duplicate_key_kept :
    (manageNlsyData c6Raw c6Info).isOk = true ∧
    ((manageNlsyData c6Raw c6Info).toOption.map (fun t =>
      t.rows.countP
        (fun r => decide (r.1 = [Value.int 1, Value.int 1986])))) =
      some 2 := by
  decide

/-- Claim C6 (amended): no code path checks key uniqueness — duplicate
child ids in the raw input yield duplicate (child, year) rows that are
kept silently — but rows coming from different waves always carry
distinct keys, because each wave stamps its own year into the key:
provided the metadata never uses the reserved name `year`, every row of a
cleaned wave has key (childid-cell, year), keys of two different waves'
outputs are disjoint, and every row of the concatenated long table
carries one of the thirteen wave years. -/
theorem C6_keys_amended (raw : RawTable) (info : List MetaRow)
    (hyear : ∀ mr ∈ info,
      mr.nlsy_name ≠ "year" ∧ mr.readable_name ≠ "year") :
    (∀ y t, cleanOneWave raw y info = Except.ok t →
      ∀ r ∈ t.rows, ∃ cv, r.1 = [cv, Value.int y]) ∧
    (∀ y1 y2 t1 t2, y1 ≠ y2 →
      cleanOneWave raw y1 info = Except.ok t1 →
      cleanOneWave raw y2 info = Except.ok t2 →
      ∀ k, k ∈ t1.rows.map Prod.fst → k ∉ t2.rows.map Prod.fst) ∧
    (∀ t, manageNlsyData raw info = Except.ok t →
      ∀ r ∈ t.rows, ∃ cv y, y ∈ nlsyWaveYears ∧ r.1 = [cv, Value.int y]) := by
  have hwave : ∀ y t, cleanOneWave raw y info = Except.ok t →
      ∀ r ∈ t.rows, ∃ cv, r.1 = [cv, Value.int y] := by
    intro y t hok r hr
    obtain ⟨hchild, r4, hs, hchk, hrows⟩ := cleanOneWave_ok_inv hok
    rw [hrows] at hr
    obtain ⟨rr, hrr, hrq⟩ := List.mem_map.mp hr
    have hrel := forall2_zip_mem (astypeStage_rel hs) rr hrr
    have hrr2 : rr.2 ∈ raw.rows.map (harmonizedRowOf raw y info) :=
      (List.of_mem_zip hrr).2
    obtain ⟨rrow, hrrow, hhr⟩ := List.mem_map.mp hrr2
    have hyv : findVal rr.2 "year" = some (Value.int y) := by
      rw [← hhr]
      exact harmonizedRow_year raw y info hyear rrow
    have hyar : findVal rr.1 "year" = some (Value.int y) := hrel.2.2 y hyv
    refine ⟨cellAt rr.1 "childid", ?_⟩
    rw [← hrq]
    show [cellAt rr.1 "childid", cellAt rr.1 "year"] =
      [cellAt rr.1 "childid", Value.int y]
    simp only [cellAt]
    rw [hyar]
    rfl
  refine ⟨hwave, ?_, ?_⟩
  · intro y1 y2 t1 t2 hne h1 h2 k hk1 hk2
    obtain ⟨r1, hr1, hq1⟩ := List.mem_map.mp hk1
    obtain ⟨r2, hr2, hq2⟩ := List.mem_map.mp hk2
    obtain ⟨cv1, hcv1⟩ := hwave y1 t1 h1 r1 hr1
    obtain ⟨cv2, hcv2⟩ := hwave y2 t2 h2 r2 hr2
    rw [hq1] at hcv1
    rw [hq2] at hcv2
    rw [hcv1] at hcv2
    have : Value.int y1 = Value.int y2 := by
      have := List.cons.inj hcv2
      exact (List.cons.inj this.2).1
    exact hne (Value.int.inj this)
  · intro t hok r hr
    rw [manageNlsyData] at hok
    cases hw : mapExcept (fun y => cleanOneWave raw y info)
        nlsyWaveYears with
    | error e => rw [hw] at hok; simp at hok
    | ok waves =>
      rw [hw] at hok
      dsimp only at hok
      rw [← Except.ok.inj hok] at hr
      have hr' : r ∈ (waves.map Frame.rows).flatten := by
        rw [concatSorted] at hr
        exact sortRows_mem.mp hr
      obtain ⟨rl, hrl, hrin⟩ := List.mem_flatten.mp hr'
      obtain ⟨w, hwv, hwr⟩ := List.mem_map.mp hrl
      obtain ⟨y, hy, hcw⟩ := forall2_mem_left (mapExcept_ok_forall2 hw) w hwv
      obtain ⟨cv, hcv⟩ := hwave y w hcw r (hwr ▸ hrin)
      exact ⟨cv, y, hy, hcv⟩

/-- Witness for C6: the 1986 wave of the duplicate-child table carries
keys stamped with the year 1986. -/
theorem C6_keys_amended_witness :
    ∃ cv, (([Value.int 1, Value.int 1986],
      ([] : List (String × Value))) :
        List Value × List (String × Value)).1 = [cv, Value.int 1986] :=
  (C6_keys_amended c6Raw c6Info (by decide)).1 1986 c6Wave (by decide)
    ([Value.int 1, Value.int 1986], []) (by decide)

theorem findVal_filter {β : Type} {p : String × β → Bool}
    {l : List (String × β)} {c : String} (hp : ∀ v, p (c, v) = true) :
    findVal (l.filter p) c = findVal l c := by
  induction l with
  | nil => rfl
  | cons e l ih =>
    by_cases he : e.1 = c
    · have hpe : p e = true := by
        have hec : e = (c, e.2) := by
          rw [← he]
        rw [hec]
        exact hp e.2
      rw [List.filter_cons_of_pos hpe]
      show (if e.1 = c then some e.2 else findVal (l.filter p) c) =
        (if e.1 = c then some e.2 else findVal l c)
      rw [if_pos he, if_pos he]
    · by_cases hpe : p e = true
      · rw [List.filter_cons_of_pos hpe]
        show (if e.1 = c then some e.2 else findVal (l.filter p) c) =
          (if e.1 = c then some e.2 else findVal l c)
        rw [if_neg he, if_neg he]
        exact ih
      · rw [List.filter_cons_of_neg (by simpa using hpe)]
        show findVal (l.filter p) c =
          (if e.1 = c then some e.2 else findVal l c)
        rw [if_neg he]
        exact ih

theorem categoricalToBinary_range {v : Value} {q : ℚ}
    (h : categoricalToBinary v = some q) : q = 0 ∨ q = 1 := by
  cases v with
  | na => exact absurd h (by simp [categoricalToBinary])
  | int n => exact absurd h (by simp [categoricalToBinary])
  | str s => exact absurd h (by simp [categoricalToBinary])
  | num q0 => exact absurd h (by simp [categoricalToBinary])
  | cat l =>
    cases l with
    | notTrue =>
      have h0 : (some (0 : ℚ)) = some q := h
      exact Or.inl (Option.some.inj h0).symm
    | sometimesTrue =>
      have h0 : (some (1 : ℚ)) = some q := h
      exact Or.inr (Option.some.inj h0).symm
    | oftenTrue =>
      have h0 : (some (1 : ℚ)) = some q := h
      exact Or.inr (Option.some.inj h0).symm

theorem seriesMean_none_iff (xs : List (Option ℚ)) :
    seriesMean xs = none ↔ ∀ b ∈ xs, b = none := by
  rw [seriesMean]
  by_cases h : (xs.filterMap id).length = 0
  · rw [if_pos h]
    have hnil : xs.filterMap id = [] := List.length_eq_zero.mp h
    constructor
    · intro _ b hb
      exact List.filterMap_eq_nil_iff.mp hnil b hb
    · intro _
      rfl
  · rw [if_neg h]
    constructor
    · intro hc
      exact absurd hc (by simp)
    · intro hall
      exact absurd (List.length_eq_zero.mpr
        (List.filterMap_eq_nil_iff.mpr hall)) h

theorem seriesMean_bounds {xs : List (Option ℚ)}
    (hx : ∀ b ∈ xs, ∀ q0 : ℚ, b = some q0 → q0 = 0 ∨ q0 = 1) {q : ℚ}
    (h : seriesMean xs = some q) : 0 ≤ q ∧ q ≤ 1 := by
  rw [seriesMean] at h
  by_cases hl : (xs.filterMap id).length = 0
  · rw [if_pos hl] at h
    simp at h
  · rw [if_neg hl] at h
    have hq : (xs.filterMap id).sum / ((xs.filterMap id).length : ℚ) = q :=
      Option.some.inj h
    have hmem : ∀ v ∈ xs.filterMap id, v = 0 ∨ v = 1 := by
      intro v hv
      obtain ⟨b, hb, hbv⟩ := List.mem_filterMap.mp hv
      exact hx b hb v hbv
    have h0 : 0 ≤ (xs.filterMap id).sum :=
      List.sum_nonneg (fun v hv => by
        rcases hmem v hv with hh | hh <;> rw [hh] <;> norm_num)
    have h1 : (xs.filterMap id).sum ≤ ((xs.filterMap id).length : ℚ) := by
      have hs := List.sum_le_card_nsmul (xs.filterMap id) 1 (fun v hv => by
        rcases hmem v hv with hh | hh <;> rw [hh] <;> norm_num)
      simpa [nsmul_eq_mul] using hs
    have hpos : (0 : ℚ) < ((xs.filterMap id).length : ℚ) := by
      exact_mod_cast Nat.pos_of_ne_zero hl
    constructor
    · rw [← hq]
      exact div_nonneg h0 (le_of_lt hpos)
    · rw [← hq]
      exact (div_le_one hpos).mpr h1

theorem map_fst_rename (info : List MetaRow) (year : Int)
    (l : List (String × Value)) :
    (l.map (fun e => (applyRename info year e.1, e.2))).map Prod.fst =
      (l.map Prod.fst).map (applyRename info year) := by
  induction l with
  | nil => rfl
  | cons e l ih => simp [ih]

theorem subsetRow_keys (raw : RawTable) (year : Int) (info : List MetaRow)
    (r : List (String × Value)) :
    (subsetRowOf raw year info r).map Prod.fst =
      subsetColsOf raw year info := by
  rw [subsetRowOf, subsetColsOf, List.map_append, List.map_map]
  have hcomp : (Prod.fst ∘ fun c : String => (c, cellAt r c)) = id := by
    funext c
    rfl
  rw [hcomp, List.map_id]
  rfl

theorem harmonizedRow_keys (raw : RawTable) (year : Int)
    (info : List MetaRow) (r : List (String × Value)) :
    (harmonizedRowOf raw year info r).map Prod.fst =
      renamedColsOf raw year info := by
  rw [harmonizedRowOf, map_fst_harmonize, renamedRowOf, map_fst_rename,
    subsetRow_keys, renamedColsOf]

theorem string_append_cancel_left {a b s : String} (h : s ++ a = s ++ b) :
    a = b := by
  have hd : s.data ++ a.data = s.data ++ b.data := by
    rw [← String.data_append, ← String.data_append, h]
  have hab := List.append_cancel_left hd
  cases a
  cases b
  exact congrArg String.mk hab

theorem findVal_bpi_map (g : String → Value) {sc : String} (l : List String) :
    sc ∈ l →
      findVal (l.map (fun x => ("bpi_" ++ x, g x))) ("bpi_" ++ sc) =
        some (g sc) := by
  induction l with
  | nil => intro hmem; simp at hmem
  | cons x xs ih =>
    intro hmem
    rw [List.map_cons]
    by_cases hx : x = sc
    · subst hx
      show (if "bpi_" ++ x = "bpi_" ++ x then some (g x) else _) = some (g x)
      rw [if_pos rfl]
    · have hne : ¬ ("bpi_" ++ x = "bpi_" ++ sc) :=
        fun hh => hx (string_append_cancel_left hh)
      show (if "bpi_" ++ x = "bpi_" ++ sc then some (g x)
        else findVal (xs.map (fun x => ("bpi_" ++ x, g x)))
          ("bpi_" ++ sc)) = some (g sc)
      rw [if_neg hne]
      refine ih ?_
      cases List.mem_cons.mp hmem with
      | inl h => exact absurd h.symm hx
      | inr h => exact h

theorem findVal_scoreEntries (raw : RawTable) (year : Int)
    (info : List MetaRow) (hr : List (String × Value)) {sc : String}
    (hmem : sc ∈ subscalesOf raw year info) :
    findVal (scoreEntriesOfRow raw year info hr) ("bpi_" ++ sc) =
      some (scoreValueOfRow raw year info hr sc) := by
  rw [scoreEntriesOfRow]
  exact findVal_bpi_map (scoreValueOfRow raw year info hr)
    (subscalesOf raw year info) hmem

theorem pyDedup_subset {l : List String} {x : String}
    (h : x ∈ pyDedup l) : x ∈ l := by
  induction l with
  | nil => simp [pyDedup] at h
  | cons c cs ih =>
    rw [pyDedup] at h
    cases List.mem_cons.mp h with
    | inl hh => exact hh ▸ List.mem_cons_self c cs
    | inr hh =>
      exact List.mem_cons_of_mem c (ih (List.mem_filter.mp hh).1)

theorem subItems_mem {raw : RawTable} {year : Int} {info : List MetaRow}
    {sc c : String} (h : c ∈ subItemsOf raw year info sc) :
    c ∈ itemColsCatOf raw year info :=
  pyDedup_subset (List.mem_filter.mp h).1

theorem itemColsCat_sub_renamed {raw : RawTable} {year : Int}
    {info : List MetaRow} {c : String}
    (h : c ∈ itemColsCatOf raw year info) :
    c ∈ renamedColsOf raw year info :=
  of_decide_eq_true (List.mem_filter.mp h).2

/-- Claim C2: in every row of a cleaned wave, each subscale score cell
equals the mean of the binarized items of that subscale computed over the
non-missing items of that row: when every contributing binarized item is
missing the score cell is missing (and the mean is missing exactly in that
case), and otherwise the score is a number in [0, 1].  The hypotheses say
the metadata does not name an item column like an identifier column. -/
theorem C2_subscale_scores (raw : RawTable) (year : Int)
    (info : List MetaRow) (t : Frame)
    (hok : cleanOneWave raw year info = Except.ok t)
    (hci : "childid" ∉ itemColsCatOf raw year info)
    (hyi : "year" ∉ itemColsCatOf raw year info)
    (hmi : "momid" ∉ itemColsCatOf raw year info)
    (hbi : "birth_order" ∉ itemColsCatOf raw year info) :
    ∀ r ∈ t.rows, ∀ sc ∈ subscalesOf raw year info,
      ((seriesMean ((subItemsOf raw year info sc).map
          (fun c => categoricalToBinary (cellAt r.2 c))) = none →
        cellAt r.2 ("bpi_" ++ sc) = Value.na) ∧
       (∀ q : ℚ, seriesMean ((subItemsOf raw year info sc).map
          (fun c => categoricalToBinary (cellAt r.2 c))) = some q →
        cellAt r.2 ("bpi_" ++ sc) = Value.num q ∧ 0 ≤ q ∧ q ≤ 1) ∧
       (seriesMean ((subItemsOf raw year info sc).map
          (fun c => categoricalToBinary (cellAt r.2 c))) = none ↔
        ∀ b ∈ (subItemsOf raw year info sc).map
          (fun c => categoricalToBinary (cellAt r.2 c)), b = none)) := by
  intro r hr sc hsc
  obtain ⟨hchild, r4, hs, hchk, hrows⟩ := cleanOneWave_ok_inv hok
  rw [hrows] at hr
  obtain ⟨rr, hrr, hrq⟩ := List.mem_map.mp hr
  have hrel := forall2_zip_mem (astypeStage_rel hs) rr hrr
  have hrr2 : rr.2 ∈ raw.rows.map (harmonizedRowOf raw year info) :=
    (List.of_mem_zip hrr).2
  obtain ⟨rrow, hrrow, hhr⟩ := List.mem_map.mp hrr2
  have hkeys2 : rr.2.map Prod.fst = renamedColsOf raw year info := by
    rw [← hhr]
    exact harmonizedRow_keys raw year info rrow
  have hkeys1 : rr.1.map Prod.fst = renamedColsOf raw year info := by
    rw [hrel.1, hkeys2]
  have hr2eq : r.2 = rr.1.filter
      (fun e => decide (¬ (e.1 = "childid" ∨ e.1 = "year"))) ++
        scoreEntriesOfRow raw year info rr.2 := by
    rw [← hrq]
  have hsNotCol : ∀ x ∈ scoreColsOf raw year info,
      x ∉ renamedColsOf raw year info := by
    intro x hx hx2
    have hfil := List.filter_eq_nil_iff.mp hchk x hx
    simp [hx2] at hfil
  have hbpiScore : ("bpi_" ++ sc) ∈ scoreColsOf raw year info := by
    rw [scoreColsOf]
    exact List.mem_map_of_mem _ hsc
  have hleftNone : findVal (rr.1.filter
      (fun e => decide (¬ (e.1 = "childid" ∨ e.1 = "year"))))
        ("bpi_" ++ sc) = none := by
    apply findVal_eq_none
    intro e he hec
    have hef : e ∈ rr.1 := List.mem_of_mem_filter he
    have hein : e.1 ∈ renamedColsOf raw year info := by
      rw [← hkeys1]
      exact List.mem_map_of_mem Prod.fst hef
    exact hsNotCol ("bpi_" ++ sc) hbpiScore (hec ▸ hein)
  have hscore : cellAt r.2 ("bpi_" ++ sc) =
      scoreValueOfRow raw year info rr.2 sc := by
    rw [cellAt, hr2eq, findVal_append, hleftNone]
    dsimp only
    rw [findVal_scoreEntries raw year info rr.2 hsc]
    rfl
  have hitems : ∀ c ∈ subItemsOf raw year info sc,
      cellAt r.2 c = cellAt rr.2 c := by
    intro c hc
    have hcat : c ∈ itemColsCatOf raw year info := subItems_mem hc
    have hc1 : c ≠ "childid" := fun hh => hci (hh ▸ hcat)
    have hc2 : c ≠ "year" := fun hh => hyi (hh ▸ hcat)
    have hc3 : c ≠ "momid" := fun hh => hmi (hh ▸ hcat)
    have hc4 : c ≠ "birth_order" := fun hh => hbi (hh ▸ hcat)
    have hfind : findVal rr.1 c = findVal rr.2 c :=
      hrel.2.1 c hc1 hc2 hc3 hc4
    have hfilter : findVal (rr.1.filter
        (fun e => decide (¬ (e.1 = "childid" ∨ e.1 = "year")))) c =
          findVal rr.1 c := by
      apply findVal_filter
      intro v
      simp [hc1, hc2]
    have hmemk : c ∈ rr.2.map Prod.fst := by
      rw [hkeys2]
      exact itemColsCat_sub_renamed hcat
    obtain ⟨v, hv⟩ := findVal_of_mem_keys hmemk
    rw [cellAt, cellAt, hr2eq, findVal_append, hfilter, hfind, hv]
  have hbins : (subItemsOf raw year info sc).map
      (fun c => categoricalToBinary (cellAt r.2 c)) =
        (subItemsOf raw year info sc).map
          (fun c => categoricalToBinary (cellAt rr.2 c)) := by
    apply List.map_congr_left
    intro c hc
    rw [hitems c hc]
  refine ⟨?_, ?_, ?_⟩
  · intro hnone
    rw [hbins] at hnone
    rw [hscore, scoreValueOfRow, hnone]
  · intro q hq
    rw [hbins] at hq
    constructor
    · rw [hscore, scoreValueOfRow, hq]
    · refine seriesMean_bounds ?_ hq
      intro b hb q0 hbq
      obtain ⟨c, hc, hcb⟩ := List.mem_map.mp hb
      exact categoricalToBinary_range (hcb.trans hbq)
  · exact seriesMean_none_iff _

/-- Witness for C2: in the concrete 1986 wave whose anxiety items are all
missing, the anxiety score cell is missing, not zero. -/
theorem C2_subscale_scores_witness :
    cellAt c2Row.2 ("bpi_" ++ "anxiety") = Value.na :=
  (C2_subscale_scores c2Raw 1986 c2Info c2Wave (by decide) (by decide)
    (by decide) (by decide) (by decide) c2Row (by decide) "anxiety"
    (by decide)).1 (by decide)

end EppPipeline
